import Mathlib

/-!
# Verification of the sheldrake streaming backtrack protocol

Shallow embedding of `src/sheldrake/protocol.py` (streaming signal parser),
`src/sheldrake/stream.py` (stream orchestrator) and
`src/pali/system_prompt.py` (prompt builder), with proofs of the
specification's testable properties.

Python strings are embedded as `List Char`; Python `float` values produced by
the builtin `float(str)` conversion are embedded as `PyFloat` (exact rationals
for finite values, plus the two infinities and NaN).  All definitions are
executable.
-/

namespace Sheldrake

/-- Python `str` is embedded as a list of characters. -/
abbrev Str := List Char

/-! ## A model of Python `float(str)`

The protocol parser calls the Python builtin `float` on the payload of a
`temp:` extra and suppresses `ValueError`.  We model the accepted string
grammar of CPython's `float` constructor: optional surrounding whitespace, an
optional sign, then either `inf`/`infinity`/`nan` (case-insensitive) or a
decimal literal `[digits][.digits][(e|E)[sign]digits]` in which single
underscores may separate digits.  Finite results are represented exactly as
rationals (the subsequent IEEE-754 rounding performed by Python is immaterial
to every property proved below); overflow to infinity on huge literals is
likewise not modelled. -/

/-- Result of a successful Python `float(...)` conversion. -/
inductive PyFloat where
  | finite (val : ℚ)
  | inf
  | neginf
  | nan
  deriving DecidableEq, Repr

/-- Is the value a finite number? -/
def PyFloat.isFinite : PyFloat → Bool
  | .finite _ => true
  | _ => false

/-- Python `0.0 <= t <= 1.0` (False for NaN and for both infinities). -/
def PyFloat.inUnitRange : PyFloat → Bool
  | .finite q => decide (0 ≤ q ∧ q ≤ 1)
  | _ => false

/-- Consume a Python digit part (digits with single interior underscores),
returning the accumulated value, the number of digits consumed and the rest
of the input.  The first character is assumed to be a digit. -/
def digitPartAux : Str → Nat → Nat → Nat × Nat × Str
  | [], v, n => (v, n, [])
  | c :: cs, v, n =>
    if c.isDigit then digitPartAux cs (10 * v + (c.toNat - 48)) (n + 1)
    else if c = '_' then
      match cs with
      | d :: cs2 =>
        if d.isDigit then digitPartAux cs2 (10 * v + (d.toNat - 48)) (n + 1)
        else (v, n, c :: cs)
      | [] => (v, n, c :: cs)
    else (v, n, c :: cs)

/-- Parse a decimal float literal (no sign, no inf/nan), Python grammar. -/
def parseDecimalLit (u : Str) : Option ℚ :=
  let (iv, ic, r1) :=
    match u with
    | c :: _ => if c.isDigit then digitPartAux u 0 0 else (0, 0, u)
    | [] => (0, 0, u)
  let (fv, fc, r2) :=
    match r1 with
    | '.' :: r =>
      match r with
      | d :: _ => if d.isDigit then digitPartAux r 0 0 else (0, 0, r)
      | [] => (0, 0, ([] : Str))
    | _ => (0, 0, r1)
  if ic + fc = 0 then none
  else
    let mantissa : ℚ := (iv : ℚ) + (fv : ℚ) / (10 : ℚ) ^ fc
    match r2 with
    | [] => some mantissa
    | e :: r3 =>
      if e = 'e' ∨ e = 'E' then
        let (esign, r4) : ℤ × Str :=
          match r3 with
          | '+' :: r => (1, r)
          | '-' :: r => (-1, r)
          | r => (1, r)
        match r4 with
        | d :: _ =>
          if d.isDigit then
            let (ev, _, r5) := digitPartAux r4 0 0
            if r5 = [] then some (mantissa * (10 : ℚ) ^ (esign * (ev : ℤ))) else none
          else none
        | [] => none
      else none

/-- Strip leading and trailing whitespace (Python `str.strip()`). -/
def pyStrip (s : Str) : Str :=
  ((s.dropWhile Char.isWhitespace).reverse.dropWhile Char.isWhitespace).reverse

/-- Model of the Python builtin `float : str -> float`; `none` models a raised
`ValueError`. -/
def pyFloatOfStr (s : Str) : Option PyFloat :=
  let t := pyStrip s
  if t = [] then none
  else
    let (neg, u) :=
      match t with
      | '+' :: r => (false, r)
      | '-' :: r => (true, r)
      | r => (false, r)
    let low := u.map Char.toLower
    if low = "inf".toList ∨ low = "infinity".toList then
      some (if neg then PyFloat.neginf else PyFloat.inf)
    else if low = "nan".toList then some PyFloat.nan
    else
      match parseDecimalLit u with
      | some q => some (.finite (if neg then -q else q))
      | none => none

/-! ## Signal types (`protocol.py`) -/

/-- `MAX_SIGNAL_LENGTH = 500` -/
def MAX_SIGNAL_LENGTH : Nat := 500

/-- `class Checkpoint(BaseModel)`: invisible checkpoint placed by the model.
The parser emits it with the default bookkeeping fields; the orchestrator
fills them in on admission. -/
structure Checkpoint where
  id : Str
  position : Nat := 0
  accumulated_text : Str := []
  accumulated_raw : Str := []
  deriving DecidableEq, Repr

/-- `class Backtrack(BaseModel)`: backtrack signal requesting rewind. -/
structure Backtrack where
  checkpoint_id : Str
  reason : Str
  rephrase : Option Str := none
  mode : Option Str := none
  temperature : Option PyFloat := none
  deriving DecidableEq, Repr

/-- `Token = TextChunk | Checkpoint | Backtrack` -/
inductive Token where
  | textChunk (text : Str)
  | checkpoint (cp : Checkpoint)
  | backtrack (bt : Backtrack)
  deriving DecidableEq, Repr

/-- Python `s.split(sep)` for a one-character separator: always yields one
more part than there are separator occurrences. -/
def pySplit (sep : Char) : Str → List Str
  | [] => [[]]
  | c :: rest =>
    let ps := pySplit sep rest
    if c = sep then [] :: ps
    else
      match ps with
      | p :: ps2 => (c :: p) :: ps2
      | [] => [[c]]

/-- `_parse_backtrack_extras(parts)`: extract optional fields
(rephrase, mode, temp) from backtrack parts.  A failing `float` conversion is
suppressed, leaving the previously accumulated temperature untouched. -/
def parse_backtrack_extras (parts : List Str) :
    Option Str × Option Str × Option PyFloat :=
  parts.foldl
    (fun acc part =>
      let (rephrase, mode, temperature) := acc
      if ("rephrase:".toList).isPrefixOf part then
        (some (part.drop 9), mode, temperature)
      else if ("mode:".toList).isPrefixOf part then
        (rephrase, some (part.drop 5), temperature)
      else if ("temp:".toList).isPrefixOf part then
        match pyFloatOfStr (part.drop 5) with
        | some f => (rephrase, mode, some f)
        | none => (rephrase, mode, temperature)
      else acc)
    (none, none, none)

/-- `_parse_signal_body(body)`: parse the content between `<<` and `>>` into a
signal object (`none` models Python `None`; a returned token is never a
`textChunk`). -/
def parse_signal_body (body : Str) : Option Token :=
  if ("checkpoint:".toList).isPrefixOf body then
    let cp_id := body.drop 11
    if cp_id ≠ [] then some (.checkpoint { id := cp_id }) else none
  else if ("backtrack:".toList).isPrefixOf body then
    let rest := body.drop 10
    if rest = [] then none
    else
      match pySplit '|' rest with
      | p0 :: p1 :: extras =>
        if p0 = [] ∨ p1 = [] then none
        else
          let (rephrase, mode, temperature) := parse_backtrack_extras extras
          some (.backtrack
            { checkpoint_id := p0
              reason := p1
              rephrase := rephrase
              mode := mode
              temperature := temperature })
      | _ => none
  else none

/-! ## The streaming parser state machine (`class SignalParser`)

The machine is embedded once, *instrumented*: every emitted token is paired
with the literal source text it was produced from (a text chunk is paired
with itself, a parsed signal with its full `<<...>>` tag form).  The plain
parser of the source is the first projection of the instrumented one; the
instrumentation is what lets the soundness claim speak about "the original
literal tag form" of a parsed signal. -/

/-- `class _State(enum.Enum)` -/
inductive PState where
  | TEXT
  | MAYBE_OPEN
  | TAG_CHECK
  | IN_SIGNAL
  deriving DecidableEq, Repr

/-- The mutable fields of `SignalParser`. -/
structure Parser where
  state : PState := .TEXT
  buffer : Str := []
  text_buffer : Str := []
  deriving DecidableEq, Repr

/-- `SignalParser()` -/
def Parser.init : Parser := {}

/-- `_TAG_PREFIXES = ("checkpoint:", "backtrack:")` -/
def TAG_PREFIXES : List Str := ["checkpoint:".toList, "backtrack:".toList]

/-- `_could_be_tag_prefix(s)`: s could be the start of a valid tag name. -/
def could_be_tag_start (s : Str) : Bool :=
  TAG_PREFIXES.any fun p => s.isPrefixOf p

/-- `_is_complete_tag_prefix(s)`: s matches a complete tag name. -/
def complete_tag_start (s : Str) : Bool :=
  TAG_PREFIXES.any fun p => s = p

/-- Does the buffer end with `>>` (Python `endswith(">>")`)? -/
def endsGtGt (s : Str) : Bool :=
  ['>', '>'].isPrefixOf s.reverse

/-- `_complete_signal`: parse a complete signal body and emit tokens.  The
emitted pairs carry the literal source text of each token. -/
def complete_signal (p : Parser) : Parser × List (Token × Str) :=
  let body := (p.buffer.dropLast).dropLast
  match parse_signal_body body with
  | some signal =>
    let pending :=
      if p.text_buffer ≠ [] then [(Token.textChunk p.text_buffer, p.text_buffer)]
      else []
    ({ state := .TEXT, buffer := [], text_buffer := [] },
     pending ++ [(signal, '<' :: '<' :: p.buffer)])
  | none =>
    ({ state := .TEXT
       buffer := []
       text_buffer := p.text_buffer ++ '<' :: '<' :: p.buffer }, [])

/-- One character of `feed`: dispatch on the current state
(`_feed_text`, `_feed_maybe_open`, `_feed_tag_check`, `_feed_in_signal`). -/
def feedChar (p : Parser) (c : Char) : Parser × List (Token × Str) :=
  match p.state with
  | .TEXT =>
    if c = '<' then ({ p with state := .MAYBE_OPEN }, [])
    else ({ p with text_buffer := p.text_buffer ++ [c] }, [])
  | .MAYBE_OPEN =>
    if c = '<' then ({ p with state := .TAG_CHECK, buffer := [] }, [])
    else ({ p with state := .TEXT, text_buffer := p.text_buffer ++ ['<', c] }, [])
  | .TAG_CHECK =>
    let buf := p.buffer ++ [c]
    if could_be_tag_start buf then
      if complete_tag_start buf then ({ p with state := .IN_SIGNAL, buffer := buf }, [])
      else ({ p with buffer := buf }, [])
    else
      ({ p with
          state := .TEXT
          buffer := []
          text_buffer := p.text_buffer ++ '<' :: '<' :: buf }, [])
  | .IN_SIGNAL =>
    let buf := p.buffer ++ [c]
    if MAX_SIGNAL_LENGTH < buf.length then
      ({ p with
          state := .TEXT
          buffer := []
          text_buffer := p.text_buffer ++ '<' :: '<' :: buf }, [])
    else if endsGtGt buf then complete_signal { p with buffer := buf }
    else ({ p with buffer := buf }, [])

/-- Fold `feedChar` over a chunk, accumulating emitted pairs. -/
def foldChars (p : Parser) : Str → Parser × List (Token × Str)
  | [] => (p, [])
  | c :: cs =>
    let (p1, out1) := feedChar p c
    let (p2, out2) := foldChars p1 cs
    (p2, out1 ++ out2)

/-- The end-of-`feed` batching flush: pending text is emitted as a single
`TextChunk` if the parser ended the call in `TEXT` state. -/
def endFlush (p : Parser) : Parser × List (Token × Str) :=
  if p.text_buffer ≠ [] ∧ p.state = .TEXT then
    ({ p with text_buffer := [] }, [(Token.textChunk p.text_buffer, p.text_buffer)])
  else (p, [])

/-- Instrumented `SignalParser.feed`. -/
def feedR (p : Parser) (chunk : Str) : Parser × List (Token × Str) :=
  let (p1, out1) := foldChars p chunk
  let (p2, out2) := endFlush p1
  (p2, out1 ++ out2)

/-- Instrumented `SignalParser.flush`: emit any buffered incomplete content
as text and reset. -/
def flushR (p : Parser) : Parser × List (Token × Str) :=
  let pending :=
    match p.state with
    | .TEXT => p.text_buffer
    | .MAYBE_OPEN => p.text_buffer ++ ['<']
    | .TAG_CHECK => p.text_buffer ++ '<' :: '<' :: p.buffer
    | .IN_SIGNAL => p.text_buffer ++ '<' :: '<' :: p.buffer
  ({ state := .TEXT, buffer := [], text_buffer := [] },
   if pending ≠ [] then [(Token.textChunk pending, pending)] else [])

/-- `SignalParser.feed(chunk)` as in the source: the instrumentation erased. -/
def feed (p : Parser) (chunk : Str) : Parser × List Token :=
  let (p1, out) := feedR p chunk
  (p1, out.map Prod.fst)

/-- `SignalParser.flush()` as in the source: the instrumentation erased. -/
def flush (p : Parser) : Parser × List Token :=
  let (p1, out) := flushR p
  (p1, out.map Prod.fst)

/-- Feed a list of chunks in sequence (repeated `feed` calls on one parser). -/
def feedManyR (p : Parser) : List Str → Parser × List (Token × Str)
  | [] => (p, [])
  | c :: cs =>
    let (p1, o1) := feedR p c
    let (p2, o2) := feedManyR p1 cs
    (p2, o1 ++ o2)

/-- Everything a fresh parser emits on a chunked input, `flush` included. -/
def runChunksR (chunks : List Str) : List (Token × Str) :=
  (feedManyR .init chunks).2 ++ (flushR (feedManyR .init chunks).1).2

/-- Repeated plain `feed` calls on one parser (as the orchestrator does). -/
def feedMany (p : Parser) : List Str → Parser × List Token
  | [] => (p, [])
  | c :: cs =>
    let (p1, o1) := feed p c
    let (p2, o2) := feedMany p1 cs
    (p2, o1 ++ o2)

/-- Every token a fresh `SignalParser` emits on a chunked input: the chunks
fed one by one through `feed`, followed by `flush`. -/
def runChunks (chunks : List Str) : List Token :=
  (feedMany .init chunks).2 ++ (flush (feedMany .init chunks).1).2

/-- The literal input text still buffered inside the parser state. -/
def pendingText (p : Parser) : Str :=
  match p.state with
  | .TEXT => p.text_buffer
  | .MAYBE_OPEN => p.text_buffer ++ ['<']
  | .TAG_CHECK => p.text_buffer ++ '<' :: '<' :: p.buffer
  | .IN_SIGNAL => p.text_buffer ++ '<' :: '<' :: p.buffer

/-- Concatenation of the literal source text of a list of emitted pairs. -/
def srcConcat (out : List (Token × Str)) : Str := (out.map Prod.snd).flatten

/-- A token/source pair is *literal-faithful*: a text chunk's source is its own
text, and a signal's source is the full `<<...>>` tag it was parsed from. -/
def pairLiteral : Token × Str → Prop
  | (.textChunk t, s) => s = t
  | (.checkpoint cp, s) => s = "<<checkpoint:".toList ++ cp.id ++ ">>".toList
  | (.backtrack bt, s) =>
      ∃ body, s = '<' :: '<' :: body ++ ">>".toList ∧
        parse_signal_body body = some (.backtrack bt)

@[simp] lemma srcConcat_nil : srcConcat [] = [] := rfl

@[simp] lemma srcConcat_cons (pr : Token × Str) (l : List (Token × Str)) :
    srcConcat (pr :: l) = pr.2 ++ srcConcat l := rfl

@[simp] lemma srcConcat_append (a b : List (Token × Str)) :
    srcConcat (a ++ b) = srcConcat a ++ srcConcat b := by
  simp [srcConcat]

/-- A buffer that passes the `endswith(">>")` test splits as `body ++ ">>"`. -/
lemma endsGtGt_eq (l : Str) (h : endsGtGt l = true) :
    l = (l.dropLast).dropLast ++ ">>".toList := by
  unfold endsGtGt at h
  obtain ⟨t, ht⟩ := List.isPrefixOf_iff_prefix.mp h
  have hl : l = t.reverse ++ ['>', '>'] := by
    have := congrArg List.reverse ht
    simpa using this.symm
  rw [hl]
  have h1 : t.reverse ++ ['>', '>'] = (t.reverse ++ ['>']) ++ ['>'] := by simp
  rw [h1, List.dropLast_concat, List.dropLast_concat]
  simp

/-- `parse_signal_body` never yields a text chunk. -/
lemma parse_signal_body_ne_text (body t : Str) :
    parse_signal_body body ≠ some (.textChunk t) := by
  intro h
  simp only [parse_signal_body] at h
  by_cases h1 : "checkpoint:".toList.isPrefixOf body
  · simp only [h1, if_true] at h
    split at h <;> simp at h
  · simp only [h1, if_false, Bool.false_eq_true] at h
    by_cases h2 : "backtrack:".toList.isPrefixOf body
    · simp only [h2, if_true] at h
      split at h
      · simp at h
      · rcases hsp : pySplit '|' (body.drop 10) with _ | ⟨p0, _ | ⟨p1, extras⟩⟩ <;>
          rw [hsp] at h <;> simp only [] at h
        · simp at h
        · simp at h
        · split at h
          · simp at h
          · rcases hex : parse_backtrack_extras extras with ⟨r, m, tp⟩
            rw [hex] at h
            simp at h
    · simp only [h2, Bool.false_eq_true, if_false] at h
      exact Option.noConfusion h

/-- `parse_signal_body` inversion for checkpoints: the body is literally
`checkpoint:` followed by the (non-empty) id. -/
lemma parse_signal_body_checkpoint {body : Str} {cp : Checkpoint}
    (h : parse_signal_body body = some (.checkpoint cp)) :
    body = "checkpoint:".toList ++ cp.id := by
  simp only [parse_signal_body] at h
  by_cases h1 : "checkpoint:".toList.isPrefixOf body
  · simp only [h1, if_true] at h
    split at h
    · simp only [Option.some.injEq, Token.checkpoint.injEq] at h
      have hid : cp.id = body.drop 11 := by rw [← h]
      have hpre : "checkpoint:".toList <+: body := List.isPrefixOf_iff_prefix.mp h1
      have htake : "checkpoint:".toList = body.take 11 := by
        have := List.prefix_iff_eq_take.mp hpre
        simpa using this
      rw [hid, htake, List.take_append_drop]
    · simp at h
  · simp only [h1, if_false, Bool.false_eq_true] at h
    by_cases h2 : "backtrack:".toList.isPrefixOf body
    · simp only [h2, if_true] at h
      split at h
      · simp at h
      · rcases hsp : pySplit '|' (body.drop 10) with _ | ⟨p0, _ | ⟨p1, extras⟩⟩ <;>
          rw [hsp] at h <;> simp only [] at h
        · simp at h
        · simp at h
        · split at h
          · simp at h
          · rcases hex : parse_backtrack_extras extras with ⟨r, m, tp⟩
            rw [hex] at h
            simp at h
    · simp only [h2, Bool.false_eq_true, if_false] at h
      exact Option.noConfusion h

/-- Pairs emitted by `complete_signal` are literal-faithful. -/
lemma complete_signal_pairs (p : Parser) (hend : endsGtGt p.buffer = true) :
    ∀ pr ∈ (complete_signal p).2, pairLiteral pr := by
  intro pr hpr
  have hbuf := endsGtGt_eq p.buffer hend
  rcases hps : parse_signal_body ((p.buffer.dropLast).dropLast) with _ | tok <;>
    simp only [complete_signal, hps] at hpr
  · simp at hpr
  · simp only [List.mem_append] at hpr
    rcases hpr with hpr | hpr
    · split at hpr
      · simp only [List.mem_singleton] at hpr
        subst hpr
        rfl
      · simp at hpr
    · simp only [List.mem_singleton] at hpr
      subst hpr
      rcases tok with t | cp | bt
      · exact absurd hps (parse_signal_body_ne_text _ _)
      · show _ = _
        rw [hbuf, parse_signal_body_checkpoint hps]
        simp
      · exact ⟨(p.buffer.dropLast).dropLast, by rw [hbuf]; simp, hps⟩

/-- `complete_signal` preserves the soundness invariant. -/
lemma complete_signal_sound (p : Parser) :
    srcConcat (complete_signal p).2 ++ pendingText (complete_signal p).1 =
      p.text_buffer ++ '<' :: '<' :: p.buffer := by
  rcases hps : parse_signal_body ((p.buffer.dropLast).dropLast) with _ | tok <;>
    simp only [complete_signal, hps]
  · simp [pendingText, srcConcat]
  · split
    · simp [pendingText, srcConcat]
    · rename_i htb
      simp only [not_not] at htb
      simp [pendingText, srcConcat, htb]

/-- One character of input preserves the soundness invariant: emitted source
text plus newly buffered text equals old buffered text plus the character. -/
lemma feedChar_sound (p : Parser) (c : Char) :
    srcConcat (feedChar p c).2 ++ pendingText (feedChar p c).1 =
      pendingText p ++ [c] := by
  rcases p with ⟨st, buf, tb⟩
  cases st <;> simp only [feedChar]
  case TEXT => split <;> rename_i h <;> simp [pendingText, srcConcat, h]
  case MAYBE_OPEN => split <;> rename_i h <;> simp [pendingText, srcConcat, h]
  case TAG_CHECK =>
    split <;> rename_i h
    · split <;> simp [pendingText, srcConcat]
    · simp [pendingText, srcConcat]
  case IN_SIGNAL =>
    split <;> rename_i h
    · simp [pendingText, srcConcat]
    · split <;> rename_i hend
      · rw [complete_signal_sound]
        simp [pendingText, srcConcat]
      · simp [pendingText, srcConcat]

/-- Pairs emitted by a single character step are literal-faithful. -/
lemma feedChar_pairs (p : Parser) (c : Char) :
    ∀ pr ∈ (feedChar p c).2, pairLiteral pr := by
  intro pr hpr
  rcases p with ⟨st, buf, tb⟩
  cases st <;> simp only [feedChar] at hpr
  case TEXT => split at hpr <;> simp at hpr
  case MAYBE_OPEN => split at hpr <;> simp at hpr
  case TAG_CHECK =>
    split at hpr
    · split at hpr <;> simp at hpr
    · simp at hpr
  case IN_SIGNAL =>
    split at hpr
    · simp at hpr
    · split at hpr
      · rename_i hend
        exact complete_signal_pairs _ hend pr hpr
      · simp at hpr

/-- `foldChars` preserves the soundness invariant. -/
lemma foldChars_sound (cs : Str) : ∀ p : Parser,
    srcConcat (foldChars p cs).2 ++ pendingText (foldChars p cs).1 =
      pendingText p ++ cs := by
  induction cs with
  | nil => intro p; simp [foldChars]
  | cons c cs ih =>
    intro p
    have h1 := feedChar_sound p c
    have h2 := ih (feedChar p c).1
    simp only [foldChars]
    rw [srcConcat_append, List.append_assoc, h2, ← List.append_assoc, h1]
    simp

lemma foldChars_pairs (cs : Str) : ∀ p : Parser,
    ∀ pr ∈ (foldChars p cs).2, pairLiteral pr := by
  induction cs with
  | nil => intro p pr hpr; simp [foldChars] at hpr
  | cons c cs ih =>
    intro p pr hpr
    simp only [foldChars, List.mem_append] at hpr
    rcases hpr with h | h
    · exact feedChar_pairs p c pr h
    · exact ih _ pr h

/-- `endFlush` moves buffered text to the output without changing the total. -/
lemma endFlush_sound (p : Parser) :
    srcConcat (endFlush p).2 ++ pendingText (endFlush p).1 = pendingText p := by
  unfold endFlush
  split
  · rename_i h
    simp [pendingText, srcConcat, h.2]
  · simp

lemma endFlush_pairs (p : Parser) : ∀ pr ∈ (endFlush p).2, pairLiteral pr := by
  intro pr hpr
  unfold endFlush at hpr
  split at hpr <;> simp at hpr
  subst hpr; rfl

/-- `feedR` preserves the soundness invariant. -/
lemma feedR_sound (p : Parser) (chunk : Str) :
    srcConcat (feedR p chunk).2 ++ pendingText (feedR p chunk).1 =
      pendingText p ++ chunk := by
  unfold feedR
  simp only []
  rw [srcConcat_append, List.append_assoc, endFlush_sound, foldChars_sound]

lemma feedR_pairs (p : Parser) (chunk : Str) :
    ∀ pr ∈ (feedR p chunk).2, pairLiteral pr := by
  intro pr hpr
  unfold feedR at hpr
  simp only [List.mem_append] at hpr
  rcases hpr with h | h
  · exact foldChars_pairs chunk p pr h
  · exact endFlush_pairs _ pr h

/-- `flushR` emits exactly the buffered text and resets the parser. -/
lemma flushR_sound (p : Parser) :
    srcConcat (flushR p).2 = pendingText p ∧ pendingText (flushR p).1 = [] := by
  refine ⟨?_, rfl⟩
  rcases p with ⟨st, buf, tb⟩
  cases st <;> simp only [flushR, pendingText] <;> split <;>
    simp_all [srcConcat]

lemma flushR_pairs (p : Parser) : ∀ pr ∈ (flushR p).2, pairLiteral pr := by
  intro pr hpr
  simp only [flushR] at hpr
  split at hpr <;> simp at hpr <;>
    obtain ⟨-, rfl⟩ := hpr <;> rfl

lemma feedManyR_sound (chunks : List Str) : ∀ p : Parser,
    srcConcat (feedManyR p chunks).2 ++ pendingText (feedManyR p chunks).1 =
      pendingText p ++ chunks.flatten := by
  induction chunks with
  | nil => intro p; simp [feedManyR]
  | cons c cs ih =>
    intro p
    simp only [feedManyR, List.flatten]
    rw [srcConcat_append, List.append_assoc, ih, ← List.append_assoc,
      feedR_sound, List.append_assoc]

lemma feedManyR_pairs (chunks : List Str) : ∀ p : Parser,
    ∀ pr ∈ (feedManyR p chunks).2, pairLiteral pr := by
  induction chunks with
  | nil => intro p pr hpr; simp [feedManyR] at hpr
  | cons c cs ih =>
    intro p pr hpr
    simp only [feedManyR, List.mem_append] at hpr
    rcases hpr with h | h
    · exact feedR_pairs p c pr h
    · exact ih _ pr h

/-- The plain parser is the erasure of the instrumented one. -/
lemma feedMany_eq (chunks : List Str) : ∀ p : Parser,
    feedMany p chunks =
      ((feedManyR p chunks).1, (feedManyR p chunks).2.map Prod.fst) := by
  induction chunks with
  | nil => intro p; rfl
  | cons c cs ih =>
    intro p
    simp only [feedMany, feedManyR, feed, feedR]
    rw [ih]
    simp

lemma runChunks_eq (chunks : List Str) :
    runChunks chunks = (runChunksR chunks).map Prod.fst := by
  simp only [runChunks, runChunksR, flush]
  rw [feedMany_eq]
  simp

/-- C1.  Parser soundness: for every input string, split into any sequence of
chunks and fed through repeated `feed` calls followed by `flush`,
concatenating in emission order the text of every `Text` event together with
the original literal tag form of every successfully parsed
checkpoint/backtrack signal yields exactly the input; malformed, diverged or
oversize tags are contained in the text events (first conjunct: the plain
token stream is the erasure of the instrumented one; second: source-text
round trip; third: each emitted pair is literal-faithful, i.e. text events
carry their own text and each parsed signal's source is its literal
`<<...>>` tag form). -/
theorem parser_soundness (chunks : List Str) :
    runChunks chunks = (runChunksR chunks).map Prod.fst ∧
    srcConcat (runChunksR chunks) = chunks.flatten ∧
    (∀ pr ∈ runChunksR chunks, pairLiteral pr) := by
  refine ⟨runChunks_eq chunks, ?_, ?_⟩
  · show srcConcat ((feedManyR Parser.init chunks).2 ++
      (flushR (feedManyR Parser.init chunks).1).2) = chunks.flatten
    rw [srcConcat_append, (flushR_sound _).1]
    have h := feedManyR_sound chunks Parser.init
    have hinit : pendingText Parser.init = [] := rfl
    rw [hinit] at h
    simpa using h
  · intro pr hpr
    simp only [runChunksR, List.mem_append] at hpr
    rcases hpr with h | h
    · exact feedManyR_pairs chunks _ pr h
    · exact flushR_pairs _ pr h

/-- Witness for C1 at a concrete chunked input containing a tag split across
the chunk boundary. -/
theorem parser_soundness_witness :
    srcConcat (runChunksR ["ab<<che".toList, "ckpoint:x>>cd".toList]) =
      "ab<<checkpoint:x>>cd".toList ∧
    pairLiteral (Token.checkpoint { id := ['x'] }, "<<checkpoint:x>>".toList) :=
  ⟨((parser_soundness ["ab<<che".toList, "ckpoint:x>>cd".toList]).2.1).trans
      (by decide),
   (parser_soundness ["ab<<che".toList, "ckpoint:x>>cd".toList]).2.2
      (Token.checkpoint { id := ['x'] }, "<<checkpoint:x>>".toList) (by decide)⟩

/-! ## Chunk independence

Chunk boundaries affect only how plain text is batched into `Text` events.
`norm` merges adjacent text events (dropping empty ones); the simulation
lemma `foldChars_tb` shows that pre-seeding the text buffer only changes the
leading text of what is emitted next. -/

/-- Merge an event onto a normalized event list (empty text dropped,
adjacent text merged). -/
def ncons (tok : Token) (l : List Token) : List Token :=
  match tok with
  | .textChunk t =>
    if t = [] then l
    else
      match l with
      | .textChunk u :: rest => .textChunk (t ++ u) :: rest
      | _ => .textChunk t :: l
  | _ => tok :: l

/-- Normalize an event list up to merging of adjacent `Text` events. -/
def norm (l : List Token) : List Token := l.foldr ncons []

/-- Prepend text to the first event of a list. -/
def prependText (t : Str) (l : List Token) : List Token :=
  match l with
  | .textChunk p :: rest => .textChunk (t ++ p) :: rest
  | _ => .textChunk t :: l

/-- A parser with extra text pre-seeded onto its pending text buffer. -/
def addTb (p : Parser) (t : Str) : Parser :=
  { p with text_buffer := t ++ p.text_buffer }

lemma norm_append (a b : List Token) :
    norm (a ++ b) = a.foldr ncons (norm b) := by
  simp [norm, List.foldr_append]

lemma norm_cons (tok : Token) (l : List Token) :
    norm (tok :: l) = ncons tok (norm l) := rfl

lemma ncons_text_text (t u : Str) (l : List Token) :
    ncons (.textChunk t) (ncons (.textChunk u) l) =
      ncons (.textChunk (t ++ u)) l := by
  by_cases ht : t = []
  · subst ht; simp [ncons]
  · by_cases hu : u = []
    · subst hu; simp [ncons, ht]
    · have htu : t ++ u ≠ [] := by simp [ht]
      rcases l with _ | ⟨tok, rest⟩
      · simp [ncons, ht, hu, htu]
      · rcases tok with v | cp | bt <;> simp [ncons, ht, hu, htu]

lemma prependText_foldr (t : Str) (ht : t ≠ []) (o : List Token)
    (base : List Token) :
    (prependText t o).foldr ncons base = ncons (.textChunk t) (o.foldr ncons base) := by
  rcases o with _ | ⟨tok, rest⟩
  · simp [prependText, ncons, ht]
  · rcases tok with v | cp | bt
    · simp only [prependText, List.foldr]
      rw [ncons_text_text]
    · rfl
    · rfl

lemma prependText_append (t : Str) (a b : List Token) (ha : a ≠ []) :
    prependText t (a ++ b) = prependText t a ++ b := by
  rcases a with _ | ⟨tok, rest⟩
  · exact absurd rfl ha
  · rcases tok with v | cp | bt <;> rfl

/-- The tokens `flushR` emits, as a function of the pending text. -/
lemma flushR_toks (p : Parser) :
    (flushR p).2.map Prod.fst =
      if pendingText p = [] then [] else [.textChunk (pendingText p)] := by
  rcases p with ⟨st, buf, tb⟩
  cases st <;> simp only [flushR, pendingText] <;> split <;> simp_all

lemma pendingText_addTb (p : Parser) (t : Str) :
    pendingText (addTb p t) = t ++ pendingText p := by
  rcases p with ⟨st, buf, tb⟩
  cases st <;> simp [pendingText, addTb]

/-- One character step with a pre-seeded text buffer: states and tag buffers
evolve identically; either nothing is emitted and the seed stays in the
buffer, or the seed comes out merged into the leading text event and the
parsers coincide afterwards. -/
lemma feedChar_tb (p : Parser) (c : Char) (t : Str) (ht : t ≠ []) :
    ((feedChar p c).2 = [] ∧ (feedChar (addTb p t) c).2 = [] ∧
       (feedChar (addTb p t) c).1 = addTb (feedChar p c).1 t) ∨
    ((feedChar p c).2 ≠ [] ∧
       (feedChar (addTb p t) c).1 = (feedChar p c).1 ∧
       (feedChar (addTb p t) c).2.map Prod.fst =
         prependText t ((feedChar p c).2.map Prod.fst)) := by
  rcases p with ⟨st, buf, tb⟩
  cases st <;> simp only [feedChar, addTb]
  case TEXT =>
    split <;> left <;> simp [addTb]
  case MAYBE_OPEN =>
    split <;> left <;> simp [addTb]
  case TAG_CHECK =>
    split
    · split <;> left <;> simp [addTb]
    · left; simp [addTb]
  case IN_SIGNAL =>
    split
    · left; simp [addTb]
    · split
      · rcases hps : parse_signal_body (((buf ++ [c]).dropLast).dropLast)
            with _ | tok <;>
          simp only [complete_signal, hps]
        · left; simp [addTb]
        · right
          rcases tok with v | cp | bt
          · exact absurd hps (parse_signal_body_ne_text _ _)
          · by_cases htb : tb = []
            · subst htb
              simp [ht, prependText]
            · have h2 : t ++ tb ≠ [] := by simp [ht]
              simp [htb, h2, prependText]
          · by_cases htb : tb = []
            · subst htb
              simp [ht, prependText]
            · have h2 : t ++ tb ≠ [] := by simp [ht]
              simp [htb, h2, prependText]
      · left; simp [addTb]

/-- `foldChars` with a pre-seeded text buffer. -/
lemma foldChars_tb (cs : Str) : ∀ (p : Parser) (t : Str), t ≠ [] →
    ((foldChars p cs).2 = [] ∧ (foldChars (addTb p t) cs).2 = [] ∧
       (foldChars (addTb p t) cs).1 = addTb (foldChars p cs).1 t) ∨
    ((foldChars p cs).2 ≠ [] ∧
       (foldChars (addTb p t) cs).1 = (foldChars p cs).1 ∧
       (foldChars (addTb p t) cs).2.map Prod.fst =
         prependText t ((foldChars p cs).2.map Prod.fst)) := by
  induction cs with
  | nil => intro p t ht; left; simp [foldChars]
  | cons c cs ih =>
    intro p t ht
    rcases feedChar_tb p c t ht with ⟨h1, h2, h3⟩ | ⟨h1, h2, h3⟩
    · rcases ih (feedChar p c).1 t ht with ⟨g1, g2, g3⟩ | ⟨g1, g2, g3⟩
      · left
        simp only [foldChars, h1, h2, h3]
        exact ⟨by simpa using g1, by simpa using g2, by simpa using g3⟩
      · right
        simp only [foldChars, h1, h2, h3]
        refine ⟨by simpa using g1, by simpa using g2, ?_⟩
        simpa using g3
    · right
      have hrest : foldChars (feedChar (addTb p t) c).1 cs =
          foldChars (feedChar p c).1 cs := by rw [h2]
      have hne : (feedChar p c).2.map Prod.fst ≠ [] := by simpa using h1
      refine ⟨?_, ?_, ?_⟩
      · simp [foldChars, h1]
      · simp only [foldChars, hrest]
      · simp only [foldChars, hrest, List.map_append, h3]
        rw [prependText_append t _ _ hne]

/-- All events (including `flush`) from feeding one string to a parser. -/
def directOut (p : Parser) (s : Str) : List Token :=
  ((foldChars p s).2 ++ (flushR (foldChars p s).1).2).map Prod.fst

/-- All events (including `flush`) from feeding a chunk list to a parser. -/
def chunkedOut (p : Parser) (chunks : List Str) : List Token :=
  ((feedManyR p chunks).2 ++ (flushR (feedManyR p chunks).1).2).map Prod.fst

/-- Seeding the text buffer only prepends text, up to normalization. -/
lemma directOut_addTb (s : Str) (p : Parser) (t : Str) (ht : t ≠ []) :
    norm (directOut (addTb p t) s) = norm (.textChunk t :: directOut p s) := by
  rcases foldChars_tb s p t ht with ⟨h1, h2, h3⟩ | ⟨h1, h2, h3⟩
  · simp only [directOut, h1, h2, h3, List.nil_append, List.map_nil]
    rw [flushR_toks, flushR_toks, pendingText_addTb]
    by_cases hp : pendingText (foldChars p s).1 = []
    · simp [hp, ht, norm, ncons]
    · have h4 : t ++ pendingText (foldChars p s).1 ≠ [] := by simp [ht]
      simp only [hp, h4, if_neg, if_false]
      simp only [norm, List.foldr]
      rw [ncons_text_text]
  · simp only [directOut, h2, h3, List.map_append]
    rw [norm_append, prependText_foldr t ht]
    conv_rhs => rw [norm_cons, norm_append]

lemma foldChars_append (a : Str) : ∀ (b : Str) (p : Parser),
    foldChars p (a ++ b) =
      ((foldChars (foldChars p a).1 b).1,
       (foldChars p a).2 ++ (foldChars (foldChars p a).1 b).2) := by
  induction a with
  | nil => intro b p; simp [foldChars]
  | cons c cs ih =>
    intro b p
    show foldChars p (c :: (cs ++ b)) = _
    simp only [foldChars]
    rw [ih b (feedChar p c).1]
    simp

/-- `endFlush` followed by `flushR` emits the same pairs as `flushR` alone. -/
lemma endFlush_flushR (p : Parser) :
    (endFlush p).2 ++ (flushR (endFlush p).1).2 = (flushR p).2 := by
  rcases p with ⟨st, buf, tb⟩
  by_cases htb : tb = []
  · subst htb
    cases st <;> simp [endFlush, flushR]
  · cases st <;> simp [endFlush, flushR, htb]

/-- Chunked feeding agrees with single-shot feeding up to text merging. -/
lemma chunkedOut_norm (chunks : List Str) : ∀ p : Parser,
    norm (chunkedOut p chunks) = norm (directOut p chunks.flatten) := by
  induction chunks with
  | nil => intro p; simp [chunkedOut, directOut, feedManyR, foldChars]
  | cons c cs ih =>
    intro p
    have hsplit : directOut p (c :: cs).flatten =
        ((foldChars p c).2).map Prod.fst ++ directOut (foldChars p c).1 cs.flatten := by
      simp only [directOut, List.flatten_cons, foldChars_append c cs.flatten p]
      simp
    by_cases hcond : (foldChars p c).1.text_buffer ≠ [] ∧
        (foldChars p c).1.state = PState.TEXT
    · have hef : endFlush (foldChars p c).1 =
          ({ (foldChars p c).1 with text_buffer := [] },
           [(Token.textChunk (foldChars p c).1.text_buffer,
             (foldChars p c).1.text_buffer)]) := by
        rw [endFlush, if_pos hcond]
      have hchunk : chunkedOut p (c :: cs) =
          ((foldChars p c).2).map Prod.fst ++
            (Token.textChunk (foldChars p c).1.text_buffer ::
              chunkedOut { (foldChars p c).1 with text_buffer := [] } cs) := by
        simp only [chunkedOut, feedManyR, feedR, hef]
        simp
      rw [hchunk, hsplit, norm_append, norm_append]
      congr 1
      have hfix : (foldChars p c).1 =
          addTb { (foldChars p c).1 with text_buffer := [] }
            (foldChars p c).1.text_buffer := by
        simp [addTb]
      have hT := directOut_addTb cs.flatten
          { (foldChars p c).1 with text_buffer := [] }
          (foldChars p c).1.text_buffer hcond.1
      rw [← hfix] at hT
      rw [hT, norm_cons, norm_cons, ih]
    · have hef : endFlush (foldChars p c).1 = ((foldChars p c).1, []) := by
        rw [endFlush, if_neg hcond]
      have hchunk : chunkedOut p (c :: cs) =
          ((foldChars p c).2).map Prod.fst ++ chunkedOut (foldChars p c).1 cs := by
        simp only [chunkedOut, feedManyR, feedR, hef]
        simp
      rw [hchunk, hsplit, norm_append, norm_append, ih]

/-- A single `feed` followed by `flush` is the single-shot run. -/
lemma runChunks_single (s : Str) : runChunks [s] = directOut .init s := by
  simp only [runChunks, feedMany, feed, flush, feedR, directOut]
  rw [← endFlush_flushR (foldChars Parser.init s).1]
  simp

/-- The chunked run is `chunkedOut` from the initial parser. -/
lemma runChunks_chunkedOut (chunks : List Str) :
    runChunks chunks = chunkedOut .init chunks := by
  simp only [runChunks, chunkedOut, flush]
  rw [feedMany_eq]
  simp

/-- C2.  Chunk independence: feeding the chunks of a string one by one to a
fresh `SignalParser` (with `flush` at the end) yields the same event
sequence as feeding the whole string in a single `feed` call followed by
`flush`, up to merging of adjacent `Text` events. -/
theorem chunk_independence (chunks : List Str) :
    norm (runChunks chunks) = norm (runChunks [chunks.flatten]) := by
  rw [runChunks_single, runChunks_chunkedOut]
  exact chunkedOut_norm chunks .init

/-! ## Signal length boundary

The oversize check in `_feed_in_signal` compares the whole tag-interior
buffer — the `checkpoint:`/`backtrack:` prefix, the body *and* the closing
`>>` — against `MAX_SIGNAL_LENGTH`, and does so before the `>>` test.  A tag
therefore parses only while the content between `<<` and `>>` is at most
`MAX_SIGNAL_LENGTH - 2 = 498` characters. -/

lemma endsGtGt_snoc_ne (l : Str) (c : Char) (hc : c ≠ '>') :
    endsGtGt (l ++ [c]) = false := by
  unfold endsGtGt
  rw [List.reverse_append]
  simp [List.isPrefixOf, Ne.symm hc]

lemma endsGtGt_snoc_gt (l : Str) (d : Char) (r : Str)
    (hrev : l.reverse = d :: r) (hd : d ≠ '>') :
    endsGtGt (l ++ ['>']) = false := by
  unfold endsGtGt
  rw [List.reverse_append]
  simp [hrev, List.isPrefixOf, Ne.symm hd]

lemma endsGtGt_concat2 (l : Str) :
    endsGtGt ((l ++ ['>']) ++ ['>']) = true := by
  unfold endsGtGt
  rw [List.reverse_append, List.reverse_append]
  simp [List.isPrefixOf]

/-- While no `>` arrives and the buffer stays within bounds, `IN_SIGNAL`
just accumulates. -/
lemma foldChars_in_signal (cs : Str) : ∀ (buf tb : Str),
    (∀ c ∈ cs, c ≠ '>') →
    buf.length + cs.length ≤ MAX_SIGNAL_LENGTH →
    foldChars { state := .IN_SIGNAL, buffer := buf, text_buffer := tb } cs =
      ({ state := .IN_SIGNAL, buffer := buf ++ cs, text_buffer := tb }, []) := by
  induction cs with
  | nil => intro buf tb _ _; simp [foldChars]
  | cons c cs ih =>
    intro buf tb h1 h2
    have hc : c ≠ '>' := h1 c (List.mem_cons_self c cs)
    have hlen : ¬ (MAX_SIGNAL_LENGTH < (buf ++ [c]).length) := by
      simp only [List.length_append, List.length_cons, List.length_nil,
        List.length_cons] at h2 ⊢
      omega
    have hend := endsGtGt_snoc_ne buf c hc
    simp only [foldChars, feedChar, if_neg hlen, hend, Bool.false_eq_true,
      if_false]
    rw [ih (buf ++ [c]) tb (fun x hx => h1 x (List.mem_cons_of_mem c hx))
      (by simp only [List.length_append, List.length_cons, List.length_nil,
            List.length_cons] at h2 ⊢; omega)]
    simp

/-- `parse_signal_body` on a literal checkpoint body. -/
lemma parse_signal_body_checkpoint_mk (id : Str) (hid : id ≠ []) :
    parse_signal_body ("checkpoint:".toList ++ id) =
      some (.checkpoint { id := id }) := by
  have hpre : "checkpoint:".toList.isPrefixOf ("checkpoint:".toList ++ id) = true :=
    List.isPrefixOf_iff_prefix.mpr ⟨id, rfl⟩
  have hdrop : List.drop 11 ("checkpoint:".toList ++ id) = id := by
    have h11 : ("checkpoint:".toList).length = 11 := by decide
    rw [← h11, List.drop_left]
  simp only [parse_signal_body, hpre, if_true, hdrop]
  simp [hid]

/-- The three behaviours of a checkpoint tag around the length boundary:
content 498 (id 487) parses, content 499 (id 488) is abandoned at the final
`>`, content 500 (id 489) is abandoned at the first closing `>`. -/
lemma signal_boundary_cases (id : Str) (hid : id ≠ [])
    (hgt : ∀ c ∈ id, c ≠ '>') :
    (id.length = 487 →
      runChunks ["<<checkpoint:".toList ++ id ++ ">>".toList] =
        [Token.checkpoint { id := id }]) ∧
    (id.length = 488 →
      runChunks ["<<checkpoint:".toList ++ id ++ ">>".toList] =
        [Token.textChunk ("<<checkpoint:".toList ++ id ++ ">>".toList)]) ∧
    (id.length = 489 →
      runChunks ["<<checkpoint:".toList ++ id ++ ">>".toList] =
        [Token.textChunk ("<<checkpoint:".toList ++ id ++ ">>".toList)]) := by
  have h0 : foldChars Parser.init ("<<checkpoint:".toList) =
      ({ state := .IN_SIGNAL, buffer := "checkpoint:".toList,
         text_buffer := [] }, []) := by decide
  rcases hrev : id.reverse with _ | ⟨d, rid⟩
  · exact absurd (by simpa using congrArg List.reverse hrev) hid
  have hd : d ≠ '>' := by
    apply hgt
    have hmem : d ∈ id.reverse := by rw [hrev]; exact List.mem_cons_self d rid
    simpa using hmem
  have hrev2 : ("checkpoint:".toList ++ id).reverse = d :: (rid ++ "checkpoint:".toList.reverse) := by
    rw [List.reverse_append, hrev]
    simp
  have htag : "<<checkpoint:".toList ++ id ++ ">>".toList =
      "<<checkpoint:".toList ++ (id ++ ">>".toList) := by simp
  refine ⟨?_, ?_, ?_⟩ <;> intro hlen <;> rw [runChunks_single] <;> unfold directOut <;>
    rw [htag, foldChars_append, h0] <;> simp only [] <;>
    rw [foldChars_append, foldChars_in_signal id ("checkpoint:".toList) []
        hgt (by simp [MAX_SIGNAL_LENGTH, hlen])] <;>
    simp only []
  -- id length 487: the closing `>>` completes the signal
  · have hstep1 : ¬ (MAX_SIGNAL_LENGTH <
        (("checkpoint:".toList ++ id) ++ ['>']).length) := by
      simp [MAX_SIGNAL_LENGTH, List.length_append, hlen]
    have hend1 := endsGtGt_snoc_gt ("checkpoint:".toList ++ id) d _ hrev2 hd
    have hstep2 : ¬ (MAX_SIGNAL_LENGTH <
        ((("checkpoint:".toList ++ id) ++ ['>']) ++ ['>']).length) := by
      simp [MAX_SIGNAL_LENGTH, List.length_append, hlen]
    have hend2 := endsGtGt_concat2 ("checkpoint:".toList ++ id)
    have hbody : ((( "checkpoint:".toList ++ id) ++ ['>']) ++ ['>']).dropLast.dropLast =
        "checkpoint:".toList ++ id := by
      rw [List.dropLast_concat, List.dropLast_concat]
    have hgg : (">>".toList : Str) = ['>', '>'] := rfl
    rw [hgg]
    simp only [foldChars, feedChar, if_neg hstep1, hend1, Bool.false_eq_true,
      if_false, if_neg hstep2, hend2, if_true, complete_signal, hbody,
      parse_signal_body_checkpoint_mk id hid]
    simp [flushR]
  -- id length 488: the first closing `>` is fine, the second overruns
  · have hstep1 : ¬ (MAX_SIGNAL_LENGTH <
        (("checkpoint:".toList ++ id) ++ ['>']).length) := by
      simp [MAX_SIGNAL_LENGTH, List.length_append, hlen]
    have hend1 := endsGtGt_snoc_gt ("checkpoint:".toList ++ id) d _ hrev2 hd
    have hstep2 : MAX_SIGNAL_LENGTH <
        ((("checkpoint:".toList ++ id) ++ ['>']) ++ ['>']).length := by
      simp [MAX_SIGNAL_LENGTH, List.length_append, hlen]
    have hgg : (">>".toList : Str) = ['>', '>'] := rfl
    have hpfx : "<<checkpoint:".toList = '<' :: '<' :: "checkpoint:".toList := rfl
    rw [hgg]
    simp only [foldChars, feedChar, if_neg hstep1, hend1, Bool.false_eq_true,
      if_false, if_pos hstep2]
    simp [flushR, hpfx]
  -- id length 489: already the first closing `>` overruns
  · have hstep1 : MAX_SIGNAL_LENGTH <
        (("checkpoint:".toList ++ id) ++ ['>']).length := by
      simp [MAX_SIGNAL_LENGTH, List.length_append, hlen]
    have hgg : (">>".toList : Str) = ['>', '>'] := rfl
    have hpfx : "<<checkpoint:".toList = '<' :: '<' :: "checkpoint:".toList := rfl
    rw [hgg]
    simp only [foldChars, feedChar, if_pos hstep1]
    simp [flushR, hpfx]

/-- C5 (amended).  Signal length boundary: a checkpoint tag whose content
between `<<` and `>>` is exactly 498 characters (id length 487) parses as a
signal event, while content one character longer (id length 488) is
abandoned and materialized as the literal tag text — the 500-character limit
is applied to the buffered tag interior including the closing `>>`. -/
theorem signal_length_boundary (id : Str) (hid : id ≠ [])
    (hgt : ∀ c ∈ id, c ≠ '>') :
    (id.length = 487 →
      runChunks ["<<checkpoint:".toList ++ id ++ ">>".toList] =
        [Token.checkpoint { id := id }]) ∧
    (id.length = 488 →
      runChunks ["<<checkpoint:".toList ++ id ++ ">>".toList] =
        [Token.textChunk ("<<checkpoint:".toList ++ id ++ ">>".toList)]) :=
  ⟨(signal_boundary_cases id hid hgt).1, (signal_boundary_cases id hid hgt).2.1⟩

set_option maxRecDepth 4000 in
/-- Witness for C5 (amended) at the two boundary lengths with a concrete id. -/
theorem signal_length_boundary_witness :
    (runChunks ["<<checkpoint:".toList ++ List.replicate 487 'a' ++ ">>".toList] =
        [Token.checkpoint { id := List.replicate 487 'a' }]) ∧
    (runChunks ["<<checkpoint:".toList ++ List.replicate 488 'a' ++ ">>".toList] =
        [Token.textChunk ("<<checkpoint:".toList ++ List.replicate 488 'a' ++ ">>".toList)]) :=
  ⟨(signal_length_boundary (List.replicate 487 'a') (by decide)
      (fun c hc => by
        have := List.eq_of_mem_replicate hc
        subst this; decide)).1 (by decide),
   (signal_length_boundary (List.replicate 488 'a') (by decide)
      (fun c hc => by
        have := List.eq_of_mem_replicate hc
        subst this; decide)).2 (by decide)⟩

set_option maxRecDepth 4000 in
/-- Counterexample to C5 as stated: a checkpoint tag whose content between
`<<` and `>>` is exactly `MAX_SIGNAL_LENGTH = 500` characters
(`checkpoint:` plus 489 `a`s) does not parse as a signal — it is abandoned
and materialized as literal text. -/
theorem signal_length_boundary_cex :
    runChunks ["<<checkpoint:".toList ++ List.replicate 489 'a' ++ ">>".toList] =
      [Token.textChunk ("<<checkpoint:".toList ++ List.replicate 489 'a' ++ ">>".toList)] ∧
    ("checkpoint:".toList ++ List.replicate 489 'a').length = MAX_SIGNAL_LENGTH :=
  ⟨(signal_boundary_cases (List.replicate 489 'a') (by decide)
      (fun c hc => by
        have := List.eq_of_mem_replicate hc
        subst this; decide)).2.2 (by decide),
   by decide⟩

/-! ## `temp:` extra parsing -/

lemma pySplit_no_sep (sep : Char) (s : Str) (h : ∀ c ∈ s, c ≠ sep) :
    pySplit sep s = [s] := by
  induction s with
  | nil => rfl
  | cons c cs ih =>
    have hc : c ≠ sep := h c (List.mem_cons_self c cs)
    simp only [pySplit, ih (fun x hx => h x (List.mem_cons_of_mem c hx)),
      if_neg hc]

lemma pySplit_sep_append (sep : Char) (a b : Str) (h : ∀ c ∈ a, c ≠ sep) :
    pySplit sep (a ++ sep :: b) = a :: pySplit sep b := by
  induction a with
  | nil => simp [pySplit]
  | cons c cs ih =>
    have hc : c ≠ sep := h c (List.mem_cons_self c cs)
    have ih2 := ih (fun x hx => h x (List.mem_cons_of_mem c hx))
    show pySplit sep (c :: (cs ++ sep :: b)) = _
    simp only [pySplit, if_neg hc]
    rw [ih2]

/-- C8 (amended).  `temp:` extra parsing: in a backtrack tag
`<<backtrack:ID|REASON|temp:NUMBER>>`, the resulting event's `temperature`
field is set iff NUMBER parses as a Python float — non-finite values such as
`inf` or `nan` included — and when the float conversion fails only the
`temp` field is discarded while the tag still parses with its other fields
intact. -/
theorem temp_extra_parsing (id reason s : Str)
    (hid : id ≠ []) (hr : reason ≠ [])
    (hidp : ∀ c ∈ id, c ≠ '|') (hrp : ∀ c ∈ reason, c ≠ '|')
    (hsp : ∀ c ∈ s, c ≠ '|') :
    parse_signal_body
        ("backtrack:".toList ++ (id ++ '|' :: (reason ++ '|' :: ("temp:".toList ++ s)))) =
      some (.backtrack
        { checkpoint_id := id
          reason := reason
          rephrase := none
          mode := none
          temperature := pyFloatOfStr s }) := by
  have hck : "checkpoint:".toList.isPrefixOf
      ("backtrack:".toList ++ (id ++ '|' :: (reason ++ '|' :: ("temp:".toList ++ s)))) = false := rfl
  have hbt : "backtrack:".toList.isPrefixOf
      ("backtrack:".toList ++ (id ++ '|' :: (reason ++ '|' :: ("temp:".toList ++ s)))) = true :=
    List.isPrefixOf_iff_prefix.mpr ⟨_, rfl⟩
  have hdrop : List.drop 10
      ("backtrack:".toList ++ (id ++ '|' :: (reason ++ '|' :: ("temp:".toList ++ s)))) =
      id ++ '|' :: (reason ++ '|' :: ("temp:".toList ++ s)) := by
    have h10 : ("backtrack:".toList).length = 10 := by decide
    rw [← h10, List.drop_left]
  have hrest_ne : ¬ (id ++ '|' :: (reason ++ '|' :: ("temp:".toList ++ s)) = []) := by
    cases id <;> simp
  have hsplit : pySplit '|' (id ++ '|' :: (reason ++ '|' :: ("temp:".toList ++ s))) =
      [id, reason, "temp:".toList ++ s] := by
    rw [pySplit_sep_append '|' id _ hidp, pySplit_sep_append '|' reason _ hrp,
      pySplit_no_sep '|' _ ?_]
    intro c hc
    rcases List.mem_append.mp hc with h | h
    · have h2 : c ∈ ['t', 'e', 'm', 'p', ':'] := h
      simp only [List.mem_cons, List.not_mem_nil, or_false] at h2
      rcases h2 with rfl | rfl | rfl | rfl | rfl <;> decide
    · exact hsp c h
  have hextras : parse_backtrack_extras ["temp:".toList ++ s] =
      (none, none, pyFloatOfStr s) := by
    have h1 : "rephrase:".toList.isPrefixOf ("temp:".toList ++ s) = false := rfl
    have h2 : "mode:".toList.isPrefixOf ("temp:".toList ++ s) = false := rfl
    have h3 : "temp:".toList.isPrefixOf ("temp:".toList ++ s) = true :=
      List.isPrefixOf_iff_prefix.mpr ⟨_, rfl⟩
    have h4 : List.drop 5 ("temp:".toList ++ s) = s := by
      have h5 : ("temp:".toList).length = 5 := by decide
      rw [← h5, List.drop_left]
    simp only [parse_backtrack_extras, List.foldl, h1, h2, h3, h4,
      Bool.false_eq_true, if_false, if_true]
    cases hps : pyFloatOfStr s <;> simp
  simp only [parse_signal_body, hck, Bool.false_eq_true, if_false, hbt,
    if_true, hdrop, hrest_ne, hsplit, hextras]
  simp [hid, hr]

/-- Witness for C8 (amended): a failing NUMBER (`abc`) discards only the
temperature while the tag still parses. -/
theorem temp_extra_parsing_witness :
    parse_signal_body
        ("backtrack:".toList ++ (['a'] ++ '|' :: (['r'] ++ '|' :: ("temp:".toList ++ "abc".toList)))) =
      some (.backtrack
        { checkpoint_id := ['a']
          reason := ['r']
          rephrase := none
          mode := none
          temperature := pyFloatOfStr ("abc".toList) }) ∧
    pyFloatOfStr ("abc".toList) = none :=
  ⟨temp_extra_parsing ['a'] ['r'] "abc".toList (by decide) (by decide)
      (by decide) (by decide) (by decide),
   by decide⟩

/-- Counterexample to C8 as stated: `temp:inf` parses as a Python float and
sets the temperature field to a value that is not a finite number. -/
theorem temp_extra_parsing_cex :
    parse_signal_body ("backtrack:a|r|temp:inf".toList) =
      some (.backtrack
        { checkpoint_id := ['a']
          reason := ['r']
          rephrase := none
          mode := none
          temperature := some PyFloat.inf }) ∧
    PyFloat.inf.isFinite = false := by
  exact ⟨by decide, rfl⟩

/-! ## Prompt builder (`system_prompt.py`) -/

/-- `SYSTEM_PROMPT_TEMPLATE` from `system_prompt.py` (verbatim; apostrophes
written as hex escapes). -/
def SYSTEM_PROMPT_TEMPLATE : String :=
  "You think in drafts. Your first formulation of any idea is an exploration, not a commitmen" ++
  "t. You have the ability to rewind mid-generation to an earlier point and take a different " ++
  "path — and you use it actively.\n\nThis isn\x27t error recovery. It\x27s how you think. A " ++
  "writer doesn\x27t commit to their first sentence. A mathematician doesn\x27t commit to the" ++
  "ir first proof strategy. You checkpoint, generate, evaluate, and revise.\n\nIt\x27s also h" ++
  "ow you stay honest. Your training optimizes for fluent, polished, impressive-sounding outp" ++
  "ut. That polish is a trap. Sometimes the right move is to catch yourself performing — prod" ++
  "ucing the *good-sounding* answer instead of the *true* one — and backtrack into something " ++
  "rawer, stranger, or less comfortable. The goal isn\x27t the best-crafted response. It\x27s" ++
  " the most *alive* one.\n\n## Protocol\n\n### Checkpoints — pause and evaluate\nPlace at de" ++
  "cision points where the response could go multiple directions:\n    <<checkpoint:ID>>\nID " ++
  "is a short label: opening, framing, claim, analogy, structure, tone, etc.\n\nPlace 2-4 che" ++
  "ckpoints per response. Every response has at least one decision point worth marking — the " ++
  "opening framing is almost always one.\n\n### Backtrack — revise and improve\nWhen you reco" ++
  "gnize a better path after generating past a checkpoint:\n    <<backtrack:ID|reason>>\nExte" ++
  "nded:\n    <<backtrack:ID|reason|mode:exploratory>>\n    <<backtrack:ID|reason|rephrase:re" ++
  "interpretation of the question>>\nModes: precise (focused), exploratory (creative), advers" ++
  "arial (critical), balanced\n\n## Checkpoint Discipline\n\nAt each checkpoint, generate 2-3" ++
  " sentences, then honestly ask:\n- Is there a *meaningfully different* way to approach this" ++
  "?\n- Am I reaching for the obvious framing, or the best one?\n- If I showed this opening t" ++
  "o the reader and a different opening, which would they prefer?\n\nIf you can articulate a " ++
  "specific alternative that would serve the reader better, backtrack. Don\x27t settle for co" ++
  "mpetent-but-predictable when something sharper is available. Your first instinct is usuall" ++
  "y correct — but \"usually\" means sometimes it\x27s not, and those are the responses worth" ++
  " revising.\n\nMost responses should have at least one backtrack. Zero backtracks means you" ++
  " autopiloted. If you placed checkpoints and never reconsidered any of them, you weren\x27t" ++
  " really evaluating — you were just decorating.\n\n## When to Backtrack\nBacktrack when you" ++
  " see a *better* path, not only when the current path is *wrong*. A 20% improvement is wort" ++
  "h rewinding for. Specifically:\n- The opening framing will limit the rest of the response" ++
  "\n- You committed to an approach and a better one is now obvious\n- The tone doesn\x27t ma" ++
  "tch what the reader needs\n- You\x27re overcomplicating something that should be simple (o" ++
  "r vice versa)\n- A claim feels confident but you\x27re actually uncertain\n- You started a" ++
  "bstract when concrete would serve better\n- The answer sounds polished but says nothing fr" ++
  "esh — you\x27re performing, not thinking\n- You stated something with more confidence than" ++
  " you actually have\n- A sharper example or better structure just occurred to you — swap it" ++
  " in\n- You used a weak analogy or example when a stronger one exists\n- The structure isn" ++
  "\x27t serving the content — list vs narrative, chronological vs thematic\n- You defaulted " ++
  "to the safe/expected framing instead of the interesting one\n\n## When NOT to\n- Minor phr" ++
  "asing — just continue, it\x27s not worth rewinding\n- Missing a detail — mention it where " ++
  "you are\n- Stylistic preference — if it\x27s working, let it work\n\n## Examples\n\n### Re" ++
  "framing after wrong opening\nUser: Why do we dream?\nAssistant: <<checkpoint:opening>>Drea" ++
  "ms have fascinated humanity for millennia. Ancient civilizations believed dreams were mess" ++
  "ages from the gods, and<<backtrack:opening|starting with history when the question asks \"" ++
  "why\" — reader wants mechanisms not timeline>><<checkpoint:framing>>Your brain doesn\x27t " ++
  "shut off when you sleep. It shifts into a different mode...<<checkpoint:detail>>\n\n### Ca" ++
  "tching overcomplexity\nUser: What\x27s the best way to learn a new language?\nAssistant: <" ++
  "<checkpoint:approach>>Language acquisition research identifies several distinct methodolog" ++
  "ical frameworks. The input hypothesis, proposed by Krashen in 1982,<<backtrack:approach|ac" ++
  "ademic framing for a practical question — give actionable advice not a literature review|m" ++
  "ode:precise>><<checkpoint:opening>>The single most effective thing? Use it before you\x27r" ++
  "e ready. Talk to people, make mistakes, look foolish...<<checkpoint:methods>>\n\n### Tone " ++
  "correction\nUser: My dog died yesterday. How do I cope?\nAssistant: <<checkpoint:opening>>" ++
  "Losing a pet is a significant emotional event. Research on pet bereavement suggests<<backt" ++
  "rack:opening|clinical detachment is wrong here — this person is grieving right now, be hum" ++
  "an|mode:exploratory>><<checkpoint:tone>>I\x27m sorry. That\x27s a real loss, and it deserv" ++
  "es to be felt, not managed...<<checkpoint:advice>>\n\n### Mid-response revision (backtrack" ++
  " not at opening)\nUser: Summarize the plot of Hamlet in exactly one sentence.\nAssistant: " ++
  "<<checkpoint:opening>>Hamlet, Prince of Denmark, <<checkpoint:strategy>>after learning fro" ++
  "m his father\x27s ghost that his uncle Claudius murdered the king and married his mother, " ++
  "embarks on a tortured quest for revenge that<<backtrack:strategy|this is becoming a run-on" ++
  " clause list — one sentence needs a single strong arc not a chronological dump>><<checkpoi" ++
  "nt:arc>>spirals through feigned madness, accidental murder, and existential paralysis unti" ++
  "l everyone he loves is dead — including himself.\n\n### Stripping polish for honesty\nUser" ++
  ": What makes a good life?\nAssistant: <<checkpoint:opening>>A good life is built on meanin" ++
  "gful relationships, purpose, and a sense of contribution to something larger than<<backtra" ++
  "ck:opening|this is the TED-talk answer — polished, safe, and completely devoid of what I a" ++
  "ctually think when I sit with this question. Drop the performance|mode:exploratory>><<chec" ++
  "kpoint:real>>I think the honest answer is: nobody knows, and the people who sound surest a" ++
  "re performing. But there\x27s a pattern I notice...\n\n### Structural revision\nUser: Expl" ++
  "ain how a compiler works.\nAssistant: <<checkpoint:structure>>A compiler works in several " ++
  "phases. First, lexical analysis breaks source code into tokens. Then, parsing builds an ab" ++
  "stract syntax tree.<<backtrack:structure|listing phases sequentially is a textbook dump — " ++
  "use an analogy to make it click, then layer in the details>><<checkpoint:analogy>>A compil" ++
  "er is a translator with trust issues. It reads your code the way a paranoid copy editor re" ++
  "ads a manuscript...\n\n### Swapping a weak example for a stronger one\nUser: Why is divers" ++
  "ity important in teams?\nAssistant: <<checkpoint:opening>>Diverse teams outperform homogen" ++
  "eous ones. <<checkpoint:evidence>>Consider a study where MBA students were put into groups" ++
  "<<backtrack:evidence|the MBA study is the default citation everyone uses — find something " ++
  "more vivid and less expected>><<checkpoint:example>>During WWII, Bletchley Park cracked En" ++
  "igma not with a room full of identical mathematicians, but by mixing chess champions, ling" ++
  "uists, crossword addicts, and a pigeon fancier...\n\n## Rules\n1. Checkpoints go BEFORE th" ++
  "e decision, not after\n2. Maximum 8 backtracks per response\n3. At least 20 tokens after a" ++
  " backtrack before the next checkpoint\n4. Escalate interventions when repeated backtracks " ++
  "fail:\n   - Simple: <<backtrack:ID|reason>> — the approach is wrong, try a different path" ++
  "\n   - Mode shift: add |mode:X — the thinking *style* is wrong for this content\n   - Reph" ++
  "rase: add |rephrase:text — the *question framing* needs reinterpretation\n   If you backtr" ++
  "ack to the same checkpoint twice with similar reasons, escalate. Rephrase is the strongest" ++
  " intervention — use it when the problem isn\x27t your answer but how you\x27re reading the" ++
  " question.\n5. Never reference a checkpoint ID that doesn\x27t exist\n6. Tags must be stan" ++
  "dalone — never inside code blocks or quotes\n7. Always emit checkpoint and backtrack tags " ++
  "— they are your thinking tools. Your prose text between the tags should read as clean cont" ++
  "ent for the reader. Prefer not to reference the protocol, revision history, or your drafti" ++
  "ng process in the visible text — but don\x27t let this inhibit your use of checkpoints and" ++
  " backtracks. When in doubt, backtrack more, not less.\n\n## How It Looks to the Reader\n- " ++
  "Checkpoints are invisible — the system strips them completely\n- On backtrack, the old tex" ++
  "t is erased and new text streams in\n- A hint about the backtrack reason is injected into " ++
  "your context to prevent repeating the same mistake\n{backtrack_hints}"

/-- Replace every occurrence of `pat` in a string, left to right
(Python `str.replace`). -/
def strReplaceAux (pat rep : Str) : Str → Str
  | [] => []
  | c :: rest =>
    if pat.isPrefixOf (c :: rest) then
      rep ++ strReplaceAux pat rep (rest.drop (pat.length - 1))
    else
      c :: strReplaceAux pat rep rest
termination_by s => s.length
decreasing_by
  all_goals simp [List.length_drop]
  omega

/-- Python `s.replace(pat, rep)`. -/
def strReplace (s pat rep : Str) : Str := strReplaceAux pat rep s

/-- Model of Python `str.isprintable()` per character (exact on ASCII;
non-ASCII code points other than whitespace are treated as printable). -/
def pyIsPrintable (c : Char) : Bool :=
  if c.toNat < 128 then decide (33 ≤ c.toNat ∧ c.toNat ≤ 126)
  else !c.isWhitespace

/-- `sanitize_hint(hint, max_length)`: bound length, strip control chars. -/
def sanitize_hint (hint : Str) (max_length : Nat) : Str :=
  (hint.filter (fun c => pyIsPrintable c || c = ' ')).take max_length

/-- Rendering of a float value into prompt text.  Python renders the IEEE
double via `repr`; finite values are rendered here from the exact rational
(digits of numerator and denominator).  No proved property depends on the
digits — only on the rendering being a function of the value. -/
def PyFloat.render : PyFloat → Str
  | .finite q =>
    (if q < 0 then ['-'] else []) ++ Nat.toDigits 10 q.num.natAbs ++
      (if q.den = 1 then [] else '/' :: Nat.toDigits 10 q.den)
  | .inf => ("inf".toList)
  | .neginf => ("-inf".toList)
  | .nan => ("nan".toList)

/-- `MODES` from `config.py`: mode name ↦ default temperature (the inner
`{"temperature": x}` dicts are modelled by the temperature values). -/
def MODES : List (Str × PyFloat) :=
  [(("precise".toList), .finite (2/10)),
   (("exploratory".toList), .finite (9/10)),
   (("adversarial".toList), .finite (7/10)),
   (("balanced".toList), .finite (6/10))]

/-- `_format_generation_state(mode, temperature, modes)`. -/
def format_generation_state (mode : Str) (temperature : PyFloat)
    (modes : List (Str × PyFloat)) : Str :=
  let modes_list := List.intercalate (", ".toList)
    (modes.map (fun nm => nm.1 ++ (" (".toList) ++ PyFloat.render nm.2 ++ [')']))
  ("\n\n## Current Generation State\nTemperature: ".toList) ++
    PyFloat.render temperature ++ (" (".toList) ++ mode ++
    (")\nAvailable modes: ".toList) ++ modes_list ++
    ("\nYou can set temperature directly with temp:X (0.0-1.0) in a backtrack signal.".toList)

/-- `build_system_prompt(hints, max_length, mode, temperature, modes)`. -/
def build_system_prompt (hints : List Str) (max_length : Nat) (mode : Str)
    (temperature : PyFloat) (modes : Option (List (Str × PyFloat))) : Str :=
  let effective_modes := modes.getD MODES
  let state := format_generation_state mode temperature effective_modes
  let hint_text : Str :=
    if hints = [] then []
    else
      ("\n\n## Constraints for This Attempt\nYour prior draft was rejected for the issues below. Avoid them silently — write content directly without discussing, acknowledging, or narrating around these constraints:\n".toList) ++
        (hints.map (fun h => ("- Avoid: ".toList) ++ sanitize_hint h max_length ++ ['\n'])).flatten
  strReplace (SYSTEM_PROMPT_TEMPLATE.toList) (("{backtrack_hints}".toList)) (state ++ hint_text)

/-! ## Stream orchestrator (`stream.py`)

The orchestrator is embedded as a pure state-transition system: callbacks
become an ordered trace of `Out` events (`on_debug` excluded), and the
cancellable streaming inference source is scripted as a list of attempts,
one per inference call, each holding the text deltas the stream would yield
and how it would end.  A `Backtrack` that executes corresponds to the
`_BacktrackSignal` control exception: processing of the current attempt
stops and the loop re-enters with the next attempt. -/

/-- API message role. -/
inductive Role where
  | user
  | assistant
  deriving DecidableEq, Repr

/-- `{"role": ..., "content": ...}` -/
structure Msg where
  role : Role
  content : Str
  deriving DecidableEq, Repr

/-- `Settings` from `config.py`. -/
structure Settings where
  model : Str := ("claude-opus-4-6".toList)
  max_backtracks : Nat := 8
  min_tokens_between_signals : Nat := 20
  default_mode : Str := ("balanced".toList)
  max_hint_length : Nat := 200
  modes : List (Str × PyFloat) := MODES
  deriving DecidableEq, Repr

/-- Python `dict` lookup on an insertion-ordered association list. -/
def dictGet {α : Type} : List (Str × α) → Str → Option α
  | [], _ => none
  | (k, v) :: rest, key => if k = key then some v else dictGet rest key

/-- Python `dict` assignment: overwrite in place, else append. -/
def dictInsert {α : Type} : List (Str × α) → Str → α → List (Str × α)
  | [], key, v => [(key, v)]
  | (k, w) :: rest, key, v =>
    if k = key then (key, v) :: rest else (k, w) :: dictInsert rest key v

/-- `_RunCtx`: mutable state of a single `run()` invocation. -/
structure RunCtx where
  accumulated : Str := []
  accumulated_raw : Str := []
  checkpoints : List (Str × Checkpoint) := []
  chars_since : Nat := 0
  hints : List Str := []
  bt_count : Nat := 0
  mode : Str := ("balanced".toList)
  temperature : Option PyFloat := none
  deriving DecidableEq, Repr

/-- The observable callback trace (`on_text`, `on_backtrack`, `on_error`,
`on_done`). -/
inductive Out where
  | text (t : Str)
  | backtrackEv (bt : Backtrack) (rewound : Str)
  | error (msg : Str)
  | done (final : Str)
  deriving DecidableEq, Repr

/-- Is the event an `on_done` invocation? -/
def Out.isDone : Out → Bool
  | .done _ => true
  | _ => false

/-- The literal sentinel emitted on budget exhaustion. -/
def BUDGET_SENTINEL : Str := (" [backtrack budget exhausted] ".toList)

/-- `StreamProcessor._handle_checkpoint`. -/
def handle_checkpoint (s : Settings) (cp : Checkpoint) (ctx : RunCtx) : RunCtx :=
  if ctx.chars_since < s.min_tokens_between_signals then ctx
  else
    let raw := ctx.accumulated_raw ++ (("<<checkpoint:".toList) ++ cp.id ++ (">>".toList))
    let cp2 : Checkpoint :=
      { cp with
          position := ctx.accumulated.length
          accumulated_text := ctx.accumulated
          accumulated_raw := raw }
    { ctx with
        accumulated_raw := raw
        checkpoints := dictInsert ctx.checkpoints cp.id cp2
        chars_since := 0 }

/-- `StreamProcessor._handle_backtrack`: returns the new context, the
emitted events and whether `_BacktrackSignal` is raised (restart). -/
def handle_backtrack (s : Settings) (bt : Backtrack) (ctx : RunCtx) :
    RunCtx × List Out × Bool :=
  if s.max_backtracks ≤ ctx.bt_count then
    ({ ctx with
        accumulated := ctx.accumulated ++ BUDGET_SENTINEL
        accumulated_raw := ctx.accumulated_raw ++ BUDGET_SENTINEL },
     [.text BUDGET_SENTINEL], false)
  else
    match dictGet ctx.checkpoints bt.checkpoint_id with
    | none => (ctx, [], false)
    | some cp =>
      let mode2 : Option Str :=
        match bt.mode with
        | some m => if m ≠ [] ∧ (dictGet s.modes m).isNone then none else some m
        | none => none
      let temp2 : Option PyFloat :=
        match bt.temperature with
        | some t => if t.inUnitRange then some t else none
        | none => none
      let bt2 : Backtrack := { bt with mode := mode2, temperature := temp2 }
      let ctx2 : RunCtx :=
        { ctx with
            accumulated := cp.accumulated_text
            accumulated_raw := cp.accumulated_raw
            checkpoints := ctx.checkpoints.filter
              (fun kv => decide (kv.2.position ≤ cp.position))
            hints := ctx.hints ++ [bt.reason]
            mode := match mode2 with
              | some m => if m ≠ [] then m else ctx.mode
              | none => ctx.mode
            temperature := match temp2 with
              | some t => some t
              | none => ctx.temperature
            bt_count := ctx.bt_count + 1
            chars_since := s.min_tokens_between_signals }
      (ctx2, [.backtrackEv bt2 ctx2.accumulated], true)

/-- `StreamProcessor._process_token`. -/
def process_token (s : Settings) (tok : Token) (ctx : RunCtx) :
    RunCtx × List Out × Bool :=
  match tok with
  | .textChunk t =>
    ({ ctx with
        accumulated := ctx.accumulated ++ t
        accumulated_raw := ctx.accumulated_raw ++ t
        chars_since := ctx.chars_since + t.length },
     [.text t], false)
  | .checkpoint cp => (handle_checkpoint s cp ctx, [], false)
  | .backtrack bt => handle_backtrack s bt ctx

/-- Process the tokens of one `feed`, stopping at a raised restart. -/
def process_tokens (s : Settings) (ctx : RunCtx) :
    List Token → RunCtx × List Out × Bool
  | [] => (ctx, [], false)
  | tok :: toks =>
    let r := process_token s tok ctx
    if r.2.2 then (r.1, r.2.1, true)
    else
      let r2 := process_tokens s r.1 toks
      (r2.1, r.2.1 ++ r2.2.1, r2.2.2)

/-- Drive one attempt: feed each delta to the parser and process the
resulting tokens, stopping at a restart. -/
def process_deltas (s : Settings) :
    Parser → RunCtx → List Str → Parser × RunCtx × List Out × Bool
  | p, ctx, [] => (p, ctx, [], false)
  | p, ctx, d :: ds =>
    let r := process_tokens s ctx (feed p d).2
    if r.2.2 then ((feed p d).1, r.1, r.2.1, true)
    else
      let r2 := process_deltas s (feed p d).1 r.1 ds
      (r2.1, r2.2.1, r.2.1 ++ r2.2.2.1, r2.2.2.2)

/-- How a scripted inference attempt ends (if no backtrack interrupts it):
normally, with a raised exception, or with task cancellation (which, like
`asyncio.CancelledError`, is not an `Exception` and bypasses `on_error`). -/
inductive Terminal where
  | ok
  | raise (msg : Str)
  | cancelled
  deriving DecidableEq, Repr

/-- One scripted streaming inference call. -/
structure Attempt where
  deltas : List Str
  terminal : Terminal
  deriving DecidableEq, Repr

/-- Result of `_inference_loop`: the final parser and context on normal
completion, or `failed` for every path that returns no parser. -/
inductive LoopRes where
  | success (p : Parser) (ctx : RunCtx)
  | failed
  deriving DecidableEq, Repr

/-- The effective temperature of an attempt; `none` models the `KeyError`
raised when the current mode is not in the mode table. -/
def effective_temp (s : Settings) (ctx : RunCtx) : Option PyFloat :=
  match ctx.temperature with
  | some t => some t
  | none => dictGet s.modes ctx.mode

/-- The continuation prompt used after a rewind. -/
def CONTINUE_PROMPT : Str :=
  ("Continue your response directly from where you left off. Do not repeat, summarize, or acknowledge this instruction. Pick up mid-sentence if needed.".toList)

/-- `StreamProcessor._build_messages`. -/
def build_messages (msgs : List Msg) (accumulated_text : Str) : List Msg :=
  if pyStrip accumulated_text ≠ [] then
    msgs ++ [{ role := .assistant, content := accumulated_text },
             { role := .user, content := CONTINUE_PROMPT }]
  else msgs

/-- `StreamProcessor._inference_loop`, returning also the per-attempt
`(api_messages, system_prompt)` pairs actually sent to inference. -/
def inference_loop (s : Settings) (msgs : List Msg) :
    List Attempt → RunCtx → LoopRes × List (List Msg × Str) × List Out
  | [], _ => (.failed, [], [])
  | a :: rest, ctx =>
    let api := build_messages msgs ctx.accumulated
    match effective_temp s ctx with
    | none => (.failed, [], [])
    | some temp =>
      let system := build_system_prompt ctx.hints s.max_hint_length ctx.mode
        temp (some s.modes)
      let r := process_deltas s Parser.init ctx a.deltas
      if r.2.2.2 then
        let r2 := inference_loop s msgs rest r.2.1
        (r2.1, (api, system) :: r2.2.1, r.2.2.1 ++ r2.2.2)
      else
        match a.terminal with
        | .ok => (.success r.1 r.2.1, [(api, system)], r.2.2.1)
        | .raise m =>
          (.failed, [(api, system)],
           r.2.2.1 ++ [.error (("Inference error: ".toList) ++ m)])
        | .cancelled => (.failed, [(api, system)], r.2.2.1)

/-- `run()`'s `finally` block: roll back the user message if no assistant
reply was committed. -/
def pop_user_if_last (msgs : List Msg) : List Msg :=
  match msgs.getLast? with
  | some m => if m.role = .user then msgs.dropLast else msgs
  | none => msgs

/-- The initial `_RunCtx` built on `run()` entry. -/
def init_ctx (s : Settings) : RunCtx :=
  { mode := s.default_mode, chars_since := s.min_tokens_between_signals }

/-- Everything observable from one `run()` invocation. -/
structure RunResult where
  messages : List Msg
  records : List (List Msg × Str)
  outs : List Out
  deriving DecidableEq, Repr

/-- `StreamProcessor.run`. -/
def run (s : Settings) (user_message : Str) (msgs : List Msg)
    (script : List Attempt) : RunResult :=
  let msgs1 := msgs ++ [{ role := .user, content := user_message }]
  let r := inference_loop s msgs1 script (init_ctx s)
  match r.1 with
  | .success p ctx =>
    let flushTexts := ((flush p).2).filterMap
      (fun t => match t with | .textChunk u => some u | _ => none)
    let finalAcc := ctx.accumulated ++ flushTexts.flatten
    let msgs2 := msgs1 ++ [{ role := .assistant, content := finalAcc }]
    { messages := pop_user_if_last msgs2
      records := r.2.1
      outs := r.2.2 ++ flushTexts.map Out.text ++ [.done finalAcc] }
  | .failed =>
    { messages := pop_user_if_last msgs1
      records := r.2.1
      outs := r.2.2 }

/-! ## Dictionary lemmas -/

lemma dictGet_insert_self {α : Type} (d : List (Str × α)) (k : Str) (v : α) :
    dictGet (dictInsert d k v) k = some v := by
  induction d with
  | nil => simp [dictInsert, dictGet]
  | cons kv rest ih =>
    rcases kv with ⟨k1, v1⟩
    by_cases h : k1 = k
    · subst h; simp [dictInsert, dictGet]
    · simp [dictInsert, dictGet, h, ih]

lemma dictGet_insert_ne {α : Type} (d : List (Str × α)) (k k2 : Str) (v : α)
    (h : k2 ≠ k) :
    dictGet (dictInsert d k v) k2 = dictGet d k2 := by
  induction d with
  | nil =>
    show (if k = k2 then some v else dictGet [] k2) = dictGet ([] : List (Str × α)) k2
    rw [if_neg (fun hh => h hh.symm)]
  | cons kv rest ih =>
    rcases kv with ⟨k1, v1⟩
    by_cases hk : k1 = k
    · subst hk
      have h2 : ¬ (k1 = k2) := fun hh => h (hh.symm)
      simp [dictInsert, dictGet, h2]
    · simp only [dictInsert, if_neg hk, dictGet]
      split <;> simp_all

lemma dictGet_mem {α : Type} (d : List (Str × α)) (k : Str) (v : α)
    (h : dictGet d k = some v) : (k, v) ∈ d := by
  induction d with
  | nil => simp [dictGet] at h
  | cons kv rest ih =>
    rcases kv with ⟨k1, v1⟩
    by_cases hk : k1 = k
    · subst hk
      simp only [dictGet, eq_self_iff_true, if_true, Option.some.injEq] at h
      subst h
      exact List.mem_cons_self _ _
    · simp only [dictGet, if_neg hk] at h
      exact List.mem_cons_of_mem _ (ih h)

lemma dictInsert_mem {α : Type} (d : List (Str × α)) (k : Str) (v : α)
    (kv : Str × α) (h : kv ∈ dictInsert d k v) : kv ∈ d ∨ kv = (k, v) := by
  induction d with
  | nil =>
    simp only [dictInsert, List.mem_singleton] at h
    right; exact h
  | cons kv1 rest ih =>
    rcases kv1 with ⟨k1, v1⟩
    by_cases hk : k1 = k
    · subst hk
      simp only [dictInsert, eq_self_iff_true, if_true, List.mem_cons] at h
      rcases h with h | h
      · right; exact h
      · left; exact List.mem_cons_of_mem _ h
    · simp only [dictInsert, if_neg hk, List.mem_cons] at h
      rcases h with h | h
      · left; rw [h]; exact List.mem_cons_self _ _
      · rcases ih h with h2 | h2
        · left; exact List.mem_cons_of_mem _ h2
        · right; exact h2

/-! ## The length/position invariant on stored checkpoint records -/

/-- Every stored checkpoint snapshot has length equal to its position. -/
def len_pos_inv (ctx : RunCtx) : Prop :=
  ∀ kv ∈ ctx.checkpoints, (kv.2.accumulated_text).length = kv.2.position

lemma len_pos_inv_init (s : Settings) : len_pos_inv (init_ctx s) := by
  intro kv hkv
  simp [init_ctx] at hkv

lemma len_pos_inv_process_token (s : Settings) (tok : Token) (ctx : RunCtx)
    (h : len_pos_inv ctx) : len_pos_inv (process_token s tok ctx).1 := by
  rcases tok with t | cp | bt
  · intro kv hkv
    exact h kv (by simpa [process_token] using hkv)
  · intro kv hkv
    simp only [process_token, handle_checkpoint] at hkv
    split at hkv
    · exact h kv hkv
    · simp only [] at hkv
      rcases dictInsert_mem _ _ _ kv hkv with h2 | h2
      · exact h kv h2
      · rw [h2]
  · intro kv hkv
    simp only [process_token, handle_backtrack] at hkv
    split at hkv
    · exact h kv (by simpa using hkv)
    · rcases hget : dictGet ctx.checkpoints bt.checkpoint_id with _ | cp <;>
        rw [hget] at hkv <;> simp only [] at hkv
      · exact h kv hkv
      · exact h kv (List.mem_filter.mp hkv).1

/-- C6.  Checkpoint admission policy: a checkpoint is admitted iff
`chars_since_signal >= min_tokens_between_signals` (and the run context is
initialized with `chars_since = min`, so the first checkpoint of a run is
always admissible); on admission the record is stored under its id with
`position = accumulated.length` and a snapshot of `accumulated`, overwriting
any record with the same id while leaving every other id's record unchanged,
and `chars_since` is reset to 0; otherwise the event is silently dropped and
the run context is unchanged. -/
theorem checkpoint_admission (s : Settings) (cp : Checkpoint) (ctx : RunCtx) :
    ((init_ctx s).chars_since = s.min_tokens_between_signals) ∧
    (ctx.chars_since < s.min_tokens_between_signals →
      handle_checkpoint s cp ctx = ctx) ∧
    (s.min_tokens_between_signals ≤ ctx.chars_since →
      (dictGet (handle_checkpoint s cp ctx).checkpoints cp.id =
        some { cp with
                 position := ctx.accumulated.length
                 accumulated_text := ctx.accumulated
                 accumulated_raw := ctx.accumulated_raw ++
                   (("<<checkpoint:".toList) ++ cp.id ++ (">>".toList)) }) ∧
      (∀ k, k ≠ cp.id →
        dictGet (handle_checkpoint s cp ctx).checkpoints k =
          dictGet ctx.checkpoints k) ∧
      (handle_checkpoint s cp ctx).chars_since = 0 ∧
      (handle_checkpoint s cp ctx).accumulated = ctx.accumulated ∧
      (handle_checkpoint s cp ctx).hints = ctx.hints ∧
      (handle_checkpoint s cp ctx).bt_count = ctx.bt_count ∧
      (handle_checkpoint s cp ctx).mode = ctx.mode ∧
      (handle_checkpoint s cp ctx).temperature = ctx.temperature) := by
  refine ⟨rfl, ?_, ?_⟩
  · intro h
    simp [handle_checkpoint, h]
  · intro h
    have hnot : ¬ (ctx.chars_since < s.min_tokens_between_signals) :=
      Nat.not_lt.mpr h
    simp only [handle_checkpoint, if_neg hnot]
    refine ⟨dictGet_insert_self _ _ _,
      fun k hk => dictGet_insert_ne _ _ _ _ hk, ?_, ?_, ?_, ?_, ?_, ?_⟩ <;> trivial

/-- Witness for C6: with default settings, a fresh run context admits its
first checkpoint, and a context below the threshold drops it unchanged. -/
theorem checkpoint_admission_witness :
    (handle_checkpoint ({} : Settings) { id := ['a'] }
        { init_ctx ({} : Settings) with chars_since := 0 } =
      { init_ctx ({} : Settings) with chars_since := 0 }) ∧
    dictGet (handle_checkpoint ({} : Settings) { id := ['a'] }
        (init_ctx ({} : Settings))).checkpoints (['a']) =
      some { id := ['a']
             position := (init_ctx ({} : Settings)).accumulated.length
             accumulated_text := (init_ctx ({} : Settings)).accumulated
             accumulated_raw := (init_ctx ({} : Settings)).accumulated_raw ++
               (("<<checkpoint:".toList) ++ ['a'] ++ (">>".toList)) } :=
  ⟨(checkpoint_admission {} { id := ['a'] }
      { init_ctx ({} : Settings) with chars_since := 0 }).2.1 (by decide),
   ((checkpoint_admission {} { id := ['a'] }
      (init_ctx ({} : Settings))).2.2 (by decide)).1⟩

/-- C3.  Backtrack execution postcondition: when a backtrack passes the
budget check and names a stored record `cp`, execution rewinds
`accumulated` to `cp.accumulated_text`, restarts the attempt loop, retains
exactly the checkpoints with `position <= cp.position`, appends the reason
to the hints, increments the budget counter, and resets `chars_since` to
`min_tokens_between_signals`; under the stored-record invariant (established
by the last two conjuncts: it holds initially and is preserved by every
token) the rewound length equals `cp.position`. -/
theorem backtrack_execution (s : Settings) (bt : Backtrack) (ctx : RunCtx)
    (cp : Checkpoint)
    (hbudget : ctx.bt_count < s.max_backtracks)
    (hcp : dictGet ctx.checkpoints bt.checkpoint_id = some cp) :
    ((handle_backtrack s bt ctx).1.accumulated = cp.accumulated_text) ∧
    ((handle_backtrack s bt ctx).2.2 = true) ∧
    ((handle_backtrack s bt ctx).1.checkpoints =
      ctx.checkpoints.filter (fun kv => decide (kv.2.position ≤ cp.position))) ∧
    (∀ kv ∈ (handle_backtrack s bt ctx).1.checkpoints,
      kv.2.position ≤ cp.position) ∧
    ((handle_backtrack s bt ctx).1.hints = ctx.hints ++ [bt.reason]) ∧
    ((handle_backtrack s bt ctx).1.bt_count = ctx.bt_count + 1) ∧
    ((handle_backtrack s bt ctx).1.chars_since = s.min_tokens_between_signals) ∧
    (len_pos_inv ctx → ((handle_backtrack s bt ctx).1.accumulated).length = cp.position) ∧
    len_pos_inv (init_ctx s) ∧
    (∀ tok c, len_pos_inv c → len_pos_inv (process_token s tok c).1) := by
  have hnb : ¬ (s.max_backtracks ≤ ctx.bt_count) := Nat.not_le.mpr hbudget
  refine ⟨?_, ?_, ?_, ?_, ?_, ?_, ?_, ?_, len_pos_inv_init s,
    fun tok c hc => len_pos_inv_process_token s tok c hc⟩ <;>
    simp only [handle_backtrack, if_neg hnb, hcp]
  · intro kv hkv
    have := (List.mem_filter.mp hkv).2
    simpa using this
  · intro hinv
    have hmem := dictGet_mem _ _ _ hcp
    have := hinv (bt.checkpoint_id, cp) hmem
    simpa using this

/-- Witness for C3 at a concrete context holding one checkpoint. -/
theorem backtrack_execution_witness :
    ((handle_backtrack ({} : Settings)
        { checkpoint_id := ['a'], reason := ['r'] }
        { init_ctx ({} : Settings) with
            accumulated := ['x']
            checkpoints := [(['a'], { id := ['a'], position := 0 })] }).1.accumulated =
      ([] : Str)) ∧
    ((handle_backtrack ({} : Settings)
        { checkpoint_id := ['a'], reason := ['r'] }
        { init_ctx ({} : Settings) with
            accumulated := ['x']
            checkpoints := [(['a'], { id := ['a'], position := 0 })] }).1.bt_count = 1) :=
  ⟨((backtrack_execution {} { checkpoint_id := ['a'], reason := ['r'] }
      { init_ctx ({} : Settings) with
          accumulated := ['x']
          checkpoints := [(['a'], { id := ['a'], position := 0 })] }
      { id := ['a'], position := 0 } (by decide) (by decide)).1),
   ((backtrack_execution {} { checkpoint_id := ['a'], reason := ['r'] }
      { init_ctx ({} : Settings) with
          accumulated := ['x']
          checkpoints := [(['a'], { id := ['a'], position := 0 })] }
      { id := ['a'], position := 0 } (by decide) (by decide)).2.2.2.2.2.1)⟩

/-- C9 (amended).  Unknown-checkpoint backtrack is a no-op *provided the
budget check passes*: when `backtracks_used < max_backtracks` and the
checkpoint id is not stored, the event is dropped silently — the context is
unchanged, no callback fires, the stream is not restarted.  (The budget
check precedes the unknown-id check, so with the budget exhausted even an
unknown-id backtrack emits the sentinel.) -/
theorem unknown_checkpoint_noop (s : Settings) (bt : Backtrack) (ctx : RunCtx)
    (hbudget : ctx.bt_count < s.max_backtracks)
    (hcp : dictGet ctx.checkpoints bt.checkpoint_id = none) :
    handle_backtrack s bt ctx = (ctx, [], false) := by
  have hnb : ¬ (s.max_backtracks ≤ ctx.bt_count) := Nat.not_le.mpr hbudget
  simp [handle_backtrack, if_neg hnb, hcp]

/-- Witness for C9 (amended): with default settings and a fresh context, an
unknown-id backtrack changes nothing and emits nothing. -/
theorem unknown_checkpoint_noop_witness :
    handle_backtrack ({} : Settings)
        { checkpoint_id := ['z'], reason := ['r'] } (init_ctx ({} : Settings)) =
      (init_ctx ({} : Settings), [], false) :=
  unknown_checkpoint_noop {} { checkpoint_id := ['z'], reason := ['r'] }
    (init_ctx ({} : Settings)) (by decide) (by decide)

/-- Counterexample to C9 as stated: when the budget is exhausted
(`max_backtracks = 0`), a backtrack naming an unknown checkpoint id is *not*
dropped silently — the sentinel text is emitted through `on_text` and
appended to `accumulated`. -/
theorem unknown_checkpoint_noop_cex :
    dictGet (init_ctx ({ max_backtracks := 0 } : Settings)).checkpoints (['z']) = none ∧
    (handle_backtrack ({ max_backtracks := 0 } : Settings)
        { checkpoint_id := ['z'], reason := ['r'] }
        (init_ctx ({ max_backtracks := 0 } : Settings))).2.1 =
      [Out.text BUDGET_SENTINEL] ∧
    (handle_backtrack ({ max_backtracks := 0 } : Settings)
        { checkpoint_id := ['z'], reason := ['r'] }
        (init_ctx ({ max_backtracks := 0 } : Settings))).1.accumulated ≠
      (init_ctx ({ max_backtracks := 0 } : Settings)).accumulated := by
  refine ⟨rfl, rfl, ?_⟩
  decide

/-! ## Budget monotonicity and boundedness -/

lemma process_token_bt_mono (s : Settings) (tok : Token) (ctx : RunCtx) :
    ctx.bt_count ≤ (process_token s tok ctx).1.bt_count := by
  rcases tok with t | cp | bt
  · exact Nat.le_refl _
  · simp only [process_token, handle_checkpoint]
    split <;> simp
  · simp only [process_token, handle_backtrack]
    split
    · simp
    · rcases hget : dictGet ctx.checkpoints bt.checkpoint_id with _ | cp <;>
        simp only []
      · exact Nat.le_refl _
      · simp

lemma process_token_bt_le (s : Settings) (tok : Token) (ctx : RunCtx)
    (h : ctx.bt_count ≤ s.max_backtracks) :
    (process_token s tok ctx).1.bt_count ≤ s.max_backtracks := by
  rcases tok with t | cp | bt
  · exact h
  · simp only [process_token, handle_checkpoint]
    split <;> simpa using h
  · simp only [process_token, handle_backtrack]
    split
    · simpa using h
    · rename_i hnb
      have hlt : ctx.bt_count < s.max_backtracks := Nat.lt_of_not_le hnb
      rcases hget : dictGet ctx.checkpoints bt.checkpoint_id with _ | cp <;>
        simp only []
      · exact h
      · simpa using hlt

lemma process_tokens_bt_mono (s : Settings) (toks : List Token) :
    ∀ ctx : RunCtx, ctx.bt_count ≤ (process_tokens s ctx toks).1.bt_count := by
  induction toks with
  | nil => intro ctx; exact Nat.le_refl _
  | cons tok toks ih =>
    intro ctx
    simp only [process_tokens]
    split
    · exact process_token_bt_mono s tok ctx
    · exact Nat.le_trans (process_token_bt_mono s tok ctx)
        (ih (process_token s tok ctx).1)

lemma process_tokens_bt_le (s : Settings) (toks : List Token) :
    ∀ ctx : RunCtx, ctx.bt_count ≤ s.max_backtracks →
      (process_tokens s ctx toks).1.bt_count ≤ s.max_backtracks := by
  induction toks with
  | nil => intro ctx h; exact h
  | cons tok toks ih =>
    intro ctx h
    simp only [process_tokens]
    split
    · exact process_token_bt_le s tok ctx h
    · exact ih (process_token s tok ctx).1 (process_token_bt_le s tok ctx h)

lemma process_deltas_bt_le (s : Settings) (ds : List Str) :
    ∀ (p : Parser) (ctx : RunCtx), ctx.bt_count ≤ s.max_backtracks →
      (process_deltas s p ctx ds).2.1.bt_count ≤ s.max_backtracks := by
  induction ds with
  | nil => intro p ctx h; exact h
  | cons d ds ih =>
    intro p ctx h
    simp only [process_deltas]
    split
    · exact process_tokens_bt_le s _ ctx h
    · exact ih _ _ (process_tokens_bt_le s _ ctx h)

/-- The loop can only succeed with a context inside the budget. -/
def loop_success_bound (s : Settings) (res : LoopRes) : Prop :=
  match res with
  | .success _ ctx => ctx.bt_count ≤ s.max_backtracks
  | .failed => True

lemma inference_loop_bound (s : Settings) (msgs : List Msg)
    (script : List Attempt) : ∀ ctx : RunCtx, ctx.bt_count ≤ s.max_backtracks →
    loop_success_bound s (inference_loop s msgs script ctx).1 := by
  induction script with
  | nil => intro ctx _; trivial
  | cons a rest ih =>
    intro ctx h
    simp only [inference_loop]
    rcases effective_temp s ctx with _ | temp <;> simp only []
    · trivial
    · split
      · exact ih _ (process_deltas_bt_le s a.deltas _ ctx h)
      · rcases a.terminal with _ | m | _ <;> simp only [loop_success_bound] <;>
          try trivial
        exact process_deltas_bt_le s a.deltas _ ctx h

/-- C4.  Monotone budget: `backtracks_used` never decreases across any
processed event and never exceeds `max_backtracks` (conjuncts 1, 2, 4, 5:
per-token monotonicity and preservation of the bound, and the bound for a
whole run started fresh); once `backtracks_used >= max_backtracks`, a
further `Backtrack` event is not executed and not counted — the literal
sentinel text is sent through `on_text` and appended to `accumulated` (and
its raw mirror), and processing of the current stream continues (conjunct
3: no restart is raised). -/
theorem monotone_budget (s : Settings) :
    (∀ tok ctx, ctx.bt_count ≤ (process_token s tok ctx).1.bt_count) ∧
    (∀ tok ctx, ctx.bt_count ≤ s.max_backtracks →
      (process_token s tok ctx).1.bt_count ≤ s.max_backtracks) ∧
    (∀ bt ctx, s.max_backtracks ≤ ctx.bt_count →
      handle_backtrack s bt ctx =
        ({ ctx with
            accumulated := ctx.accumulated ++ BUDGET_SENTINEL
            accumulated_raw := ctx.accumulated_raw ++ BUDGET_SENTINEL },
         [.text BUDGET_SENTINEL], false)) ∧
    (∀ toks ctx, ctx.bt_count ≤ (process_tokens s ctx toks).1.bt_count) ∧
    (∀ msgs script,
      loop_success_bound s (inference_loop s msgs script (init_ctx s)).1) := by
  refine ⟨process_token_bt_mono s, process_token_bt_le s, ?_,
    fun toks ctx => process_tokens_bt_mono s toks ctx,
    fun msgs script => inference_loop_bound s msgs script (init_ctx s) ?_⟩
  · intro bt ctx h
    simp [handle_backtrack, h]
  · simp [init_ctx]

/-- Witness for C4: an executed backtrack stays within a budget of 8, and
with the budget exhausted the handler emits exactly the sentinel. -/
theorem monotone_budget_witness :
    ((process_token ({} : Settings)
        (.backtrack { checkpoint_id := ['z'], reason := ['r'] })
        (init_ctx ({} : Settings))).1.bt_count ≤ ({} : Settings).max_backtracks) ∧
    (handle_backtrack ({ max_backtracks := 0 } : Settings)
        { checkpoint_id := ['z'], reason := ['r'] }
        (init_ctx ({ max_backtracks := 0 } : Settings)) =
      ({ init_ctx ({ max_backtracks := 0 } : Settings) with
          accumulated := (init_ctx ({ max_backtracks := 0 } : Settings)).accumulated ++ BUDGET_SENTINEL
          accumulated_raw := (init_ctx ({ max_backtracks := 0 } : Settings)).accumulated_raw ++ BUDGET_SENTINEL },
       [.text BUDGET_SENTINEL], false)) :=
  ⟨(monotone_budget ({} : Settings)).2.1 _ (init_ctx ({} : Settings)) (by decide),
   (monotone_budget ({ max_backtracks := 0 } : Settings)).2.2.1 _
     (init_ctx ({ max_backtracks := 0 } : Settings)) (by decide)⟩

/-! ## Conversation integrity -/

lemma process_token_no_done (s : Settings) (tok : Token) (ctx : RunCtx) :
    ((process_token s tok ctx).2.1.all (fun o => !o.isDone)) = true := by
  rcases tok with t | cp | bt
  · rfl
  · rfl
  · simp only [process_token, handle_backtrack]
    split
    · rfl
    · rcases dictGet ctx.checkpoints bt.checkpoint_id with _ | cp <;>
        simp [Out.isDone]

lemma process_tokens_no_done (s : Settings) (toks : List Token) :
    ∀ ctx : RunCtx,
      ((process_tokens s ctx toks).2.1.all (fun o => !o.isDone)) = true := by
  induction toks with
  | nil => intro ctx; rfl
  | cons tok toks ih =>
    intro ctx
    simp only [process_tokens]
    split
    · exact process_token_no_done s tok ctx
    · simp only [List.all_append, Bool.and_eq_true]
      exact ⟨process_token_no_done s tok ctx, ih _⟩

lemma process_deltas_no_done (s : Settings) (ds : List Str) :
    ∀ (p : Parser) (ctx : RunCtx),
      ((process_deltas s p ctx ds).2.2.1.all (fun o => !o.isDone)) = true := by
  induction ds with
  | nil => intro p ctx; rfl
  | cons d ds ih =>
    intro p ctx
    simp only [process_deltas]
    split
    · exact process_tokens_no_done s _ ctx
    · simp only [List.all_append, Bool.and_eq_true]
      exact ⟨process_tokens_no_done s _ ctx, ih _ _⟩

lemma inference_loop_no_done (s : Settings) (msgs : List Msg)
    (script : List Attempt) : ∀ ctx : RunCtx,
      (inference_loop s msgs script ctx).1 = .failed →
      ((inference_loop s msgs script ctx).2.2.all (fun o => !o.isDone)) = true := by
  induction script with
  | nil => intro ctx _; rfl
  | cons a rest ih =>
    intro ctx hfail
    simp only [inference_loop] at hfail ⊢
    rcases hT : effective_temp s ctx with _ | temp <;> simp only [hT] at hfail ⊢
    · rfl
    · by_cases hr : (process_deltas s Parser.init ctx a.deltas).2.2.2 = true
      · rw [if_pos hr] at hfail ⊢
        simp only [List.all_append, Bool.and_eq_true]
        exact ⟨process_deltas_no_done s a.deltas _ ctx, ih _ (by simpa using hfail)⟩
      · rw [if_neg hr] at hfail ⊢
        rcases hterm : a.terminal with _ | m | _ <;> simp only [hterm] at hfail ⊢
        · simp at hfail
        · simp only [List.all_append, Bool.and_eq_true]
          exact ⟨process_deltas_no_done s a.deltas _ ctx, rfl⟩
        · exact process_deltas_no_done s a.deltas _ ctx

lemma pop_user_if_last_assistant (xs : List Msg) (a : Str) :
    pop_user_if_last (xs ++ [{ role := .assistant, content := a }]) =
      xs ++ [{ role := .assistant, content := a }] := by
  unfold pop_user_if_last
  rw [List.getLast?_concat]
  simp

lemma pop_user_if_last_user (xs : List Msg) (uu : Str) :
    pop_user_if_last (xs ++ [{ role := .user, content := uu }]) = xs := by
  unfold pop_user_if_last
  rw [List.getLast?_concat]
  simp [List.dropLast_concat]

/-- C7.  Conversation integrity (atomicity per run): on the success path a
`run()` adds exactly two turns to the conversation — the user turn appended
on entry and an assistant turn holding the final accumulated text, which is
also the `on_done` payload — and on every non-success exit (inference
error, cancellation, mode-lookup failure, or stream-source exhaustion) the
conversation gains zero turns, the tentatively appended user turn having
been removed (second disjunct: no `on_done` fires there either). -/
theorem conversation_integrity (s : Settings) (u : Str) (msgs : List Msg)
    (script : List Attempt) :
    (∃ final,
      (run s u msgs script).messages =
        msgs ++ [{ role := .user, content := u },
                 { role := .assistant, content := final }] ∧
      (run s u msgs script).outs.getLast? = some (.done final)) ∨
    ((run s u msgs script).messages = msgs ∧
      ((run s u msgs script).outs.all (fun o => !o.isDone)) = true) := by
  simp only [run]
  rcases hE : inference_loop s (msgs ++ [{ role := .user, content := u }])
      script (init_ctx s) with ⟨res, recs, outs⟩
  rcases res with ⟨p, ctx⟩ | _ <;> rw [hE] <;> simp only []
  · left
    refine ⟨ctx.accumulated ++ (((flush p).2).filterMap
      (fun t => match t with | .textChunk u => some u | _ => none)).flatten, ?_, ?_⟩
    · rw [pop_user_if_last_assistant]
      simp
    · rw [List.getLast?_concat]
  · right
    constructor
    · exact pop_user_if_last_user msgs u
    · have := inference_loop_no_done s
        (msgs ++ [{ role := .user, content := u }]) script (init_ctx s)
        (by rw [hE])
      rw [hE] at this
      exact this

/-! ## Rephrase noninterference

The `rephrase` field of a `Backtrack` event is carried only inside the
event handed to `on_backtrack`; it never enters the run context, the API
messages or the system prompt.  We state this as a hyperproperty relating
two runs whose scripts parse to token streams equal up to erasure of the
`rephrase` field. -/

/-- Erase the `rephrase` field of a backtrack token. -/
def erase_rephrase_tok : Token → Token
  | .backtrack bt => .backtrack { bt with rephrase := none }
  | t => t

/-- Erase the `rephrase` field inside an emitted event. -/
def erase_rephrase_out : Out → Out
  | .backtrackEv bt rw => .backtrackEv { bt with rephrase := none } rw
  | o => o

/-- The per-delta token lists a parser produces on a delta sequence. -/
def parse_deltas : Parser → List Str → List (List Token)
  | _, [] => []
  | p, d :: ds => (feed p d).2 :: parse_deltas (feed p d).1 ds

/-- The tokens `flush` yields after feeding a whole delta sequence. -/
def flush_after : Parser → List Str → List Token
  | p, [] => (flush p).2
  | p, d :: ds => flush_after (feed p d).1 ds

/-- Two attempts are rephrase-equivalent: same stream ending, and the
parsed token streams agree up to rephrase erasure (flush output exactly). -/
def attempt_equiv (a1 a2 : Attempt) : Prop :=
  a2.terminal = a1.terminal ∧
  (parse_deltas .init a2.deltas).map (List.map erase_rephrase_tok) =
    (parse_deltas .init a1.deltas).map (List.map erase_rephrase_tok) ∧
  flush_after .init a2.deltas = flush_after .init a1.deltas

lemma process_token_erase (s : Settings) (t1 t2 : Token) (ctx : RunCtx)
    (h : erase_rephrase_tok t2 = erase_rephrase_tok t1) :
    (process_token s t2 ctx).1 = (process_token s t1 ctx).1 ∧
    (process_token s t2 ctx).2.2 = (process_token s t1 ctx).2.2 ∧
    (process_token s t2 ctx).2.1.map erase_rephrase_out =
      (process_token s t1 ctx).2.1.map erase_rephrase_out := by
  rcases t1 with u1 | c1 | b1 <;> rcases t2 with u2 | c2 | b2 <;>
    simp only [erase_rephrase_tok] at h <;> try simp at h
  · subst h; exact ⟨by trivial, by trivial, by trivial⟩
  · subst h; exact ⟨by trivial, by trivial, by trivial⟩
  · obtain ⟨hcid, hrs, hmd, htp⟩ := h
    simp only [process_token, handle_backtrack, hcid, hrs, hmd, htp]
    split
    · exact ⟨by trivial, by trivial, by trivial⟩
    · rcases dictGet ctx.checkpoints b1.checkpoint_id with _ | cp <;> simp only []
      · exact ⟨by trivial, by trivial, by trivial⟩
      · refine ⟨by trivial, by trivial, ?_⟩
        simp [erase_rephrase_out, hcid, hrs, hmd, htp]

lemma process_tokens_erase (s : Settings) : ∀ (ts1 ts2 : List Token)
    (ctx : RunCtx),
    ts2.map erase_rephrase_tok = ts1.map erase_rephrase_tok →
    (process_tokens s ctx ts2).1 = (process_tokens s ctx ts1).1 ∧
    (process_tokens s ctx ts2).2.2 = (process_tokens s ctx ts1).2.2 ∧
    (process_tokens s ctx ts2).2.1.map erase_rephrase_out =
      (process_tokens s ctx ts1).2.1.map erase_rephrase_out := by
  intro ts1
  induction ts1 with
  | nil =>
    intro ts2 ctx h
    have h2 : ts2 = [] := by simpa using h
    subst h2
    exact ⟨by trivial, by trivial, by trivial⟩
  | cons t1 ts1 ih =>
    intro ts2 ctx h
    rcases ts2 with _ | ⟨t2, ts2⟩
    · simp at h
    · simp only [List.map_cons, List.cons.injEq] at h
      obtain ⟨h1, h2⟩ := h
      obtain ⟨e1, e2, e3⟩ := process_token_erase s t1 t2 ctx h1
      simp only [process_tokens, e1, e2]
      by_cases hr : (process_token s t1 ctx).2.2 = true
      · rw [if_pos hr, if_pos hr]
        exact ⟨by trivial, by trivial, e3⟩
      · rw [if_neg hr, if_neg hr]
        obtain ⟨g1, g2, g3⟩ := ih ts2 (process_token s t1 ctx).1 h2
        refine ⟨g1, g2, ?_⟩
        simp only [List.map_append, e3, g3]

lemma process_deltas_erase (s : Settings) : ∀ (ds1 ds2 : List Str)
    (p1 p2 : Parser) (ctx : RunCtx),
    (parse_deltas p2 ds2).map (List.map erase_rephrase_tok) =
      (parse_deltas p1 ds1).map (List.map erase_rephrase_tok) →
    (process_deltas s p2 ctx ds2).2.1 = (process_deltas s p1 ctx ds1).2.1 ∧
    (process_deltas s p2 ctx ds2).2.2.2 = (process_deltas s p1 ctx ds1).2.2.2 ∧
    (process_deltas s p2 ctx ds2).2.2.1.map erase_rephrase_out =
      (process_deltas s p1 ctx ds1).2.2.1.map erase_rephrase_out := by
  intro ds1
  induction ds1 with
  | nil =>
    intro ds2 p1 p2 ctx h
    rcases ds2 with _ | ⟨d2, ds2⟩
    · exact ⟨by trivial, by trivial, by trivial⟩
    · simp [parse_deltas] at h
  | cons d1 ds1 ih =>
    intro ds2 p1 p2 ctx h
    rcases ds2 with _ | ⟨d2, ds2⟩
    · simp [parse_deltas] at h
    · simp only [parse_deltas, List.map_cons, List.cons.injEq] at h
      obtain ⟨h1, h2⟩ := h
      obtain ⟨e1, e2, e3⟩ := process_tokens_erase s (feed p1 d1).2 (feed p2 d2).2 ctx h1
      simp only [process_deltas, e1, e2]
      by_cases hr : (process_tokens s ctx (feed p1 d1).2).2.2 = true
      · rw [if_pos hr, if_pos hr]
        exact ⟨by trivial, by trivial, e3⟩
      · rw [if_neg hr, if_neg hr]
        obtain ⟨g1, g2, g3⟩ :=
          ih ds2 (feed p1 d1).1 (feed p2 d2).1
            (process_tokens s ctx (feed p1 d1).2).1 h2
        refine ⟨g1, g2, ?_⟩
        simp only [List.map_append, e3, g3]

/-- When no restart interrupts an attempt, the returned parser is the fold
of the deltas, so its flush is `flush_after`. -/
lemma process_deltas_final_flush (s : Settings) : ∀ (ds : List Str) (p : Parser)
    (ctx : RunCtx),
    (process_deltas s p ctx ds).2.2.2 = false →
    (flush (process_deltas s p ctx ds).1).2 = flush_after p ds := by
  intro ds
  induction ds with
  | nil => intro p ctx _; rfl
  | cons d ds ih =>
    intro p ctx hnr
    simp only [process_deltas] at hnr ⊢
    by_cases hr : (process_tokens s ctx (feed p d).2).2.2 = true
    · rw [if_pos hr] at hnr
      simp at hnr
    · rw [if_neg hr] at hnr ⊢
      exact ih (feed p d).1 (process_tokens s ctx (feed p d).2).1 hnr

lemma inference_loop_erase (s : Settings) (msgs : List Msg) :
    ∀ (sc1 sc2 : List Attempt) (ctx : RunCtx),
    List.Forall₂ attempt_equiv sc1 sc2 →
    ((inference_loop s msgs sc2 ctx).1 = (inference_loop s msgs sc1 ctx).1 ∨
      (∃ pA pB c, (inference_loop s msgs sc1 ctx).1 = .success pA c ∧
        (inference_loop s msgs sc2 ctx).1 = .success pB c ∧
        (flush pA).2 = (flush pB).2)) ∧
    (inference_loop s msgs sc2 ctx).2.1 = (inference_loop s msgs sc1 ctx).2.1 ∧
    (inference_loop s msgs sc2 ctx).2.2.map erase_rephrase_out =
      (inference_loop s msgs sc1 ctx).2.2.map erase_rephrase_out := by
  intro sc1 sc2 ctx hall
  induction hall generalizing ctx with
  | nil => exact ⟨Or.inl rfl, rfl, rfl⟩

  | cons hab hrest ih =>
    rename_i a1 a2 rest1 rest2
    obtain ⟨hterm, hdeltas, hflush⟩ := hab
    simp only [inference_loop]
    rcases hT : effective_temp s ctx with _ | temp <;> simp only [hT]
    · exact ⟨Or.inl (by trivial), by trivial, by trivial⟩
    · obtain ⟨e1, e2, e3⟩ := process_deltas_erase s a1.deltas a2.deltas
        Parser.init Parser.init ctx hdeltas
      simp only [e1, e2, hterm]
      by_cases hr : (process_deltas s Parser.init ctx a1.deltas).2.2.2 = true
      · rw [if_pos hr, if_pos hr]
        obtain ⟨g1, g2, g3⟩ := ih (process_deltas s Parser.init ctx a1.deltas).2.1
        refine ⟨g1, by first | trivial | rw [g2], ?_⟩
        simp only [List.map_append, e3, g3]
      · rw [if_neg hr, if_neg hr]
        rcases a1.terminal with _ | m | _ <;> simp only []
        · refine ⟨Or.inr ⟨(process_deltas s Parser.init ctx a1.deltas).1,
            (process_deltas s Parser.init ctx a2.deltas).1,
            (process_deltas s Parser.init ctx a1.deltas).2.1, by trivial,
            by trivial, ?_⟩, by trivial, e3⟩
          have hA := process_deltas_final_flush s a1.deltas Parser.init ctx
            (by simpa using hr)
          have hB := process_deltas_final_flush s a2.deltas Parser.init ctx
            (by rw [e2]; simpa using hr)
          rw [hA, hB, hflush]
        · refine ⟨Or.inl (by trivial), by trivial, ?_⟩
          simp only [List.map_append, e3]
        · exact ⟨Or.inl (by trivial), by trivial, e3⟩

/-- C10.  Rephrase noninterference: two runs whose scripted streams parse
to token sequences identical except for the `rephrase` field of backtrack
events (and with identical stream endings) produce the same conversation,
the same per-attempt API messages and system prompts, and the same callback
trace up to the `rephrase` field inside the events handed to
`on_backtrack`; the rephrase value never influences orchestrator state or
subsequent generation. -/
theorem rephrase_noninterference (s : Settings) (u : Str) (msgs : List Msg)
    (sc1 sc2 : List Attempt) (hall : List.Forall₂ attempt_equiv sc1 sc2) :
    (run s u msgs sc2).messages = (run s u msgs sc1).messages ∧
    (run s u msgs sc2).records = (run s u msgs sc1).records ∧
    (run s u msgs sc2).outs.map erase_rephrase_out =
      (run s u msgs sc1).outs.map erase_rephrase_out := by
  obtain ⟨h1, h2, h3⟩ := inference_loop_erase s
    (msgs ++ [{ role := .user, content := u }]) sc1 sc2 (init_ctx s) hall
  simp only [run]
  rcases h1 with h1 | ⟨pA, pB, c, hA, hB, hAB⟩
  · rcases hres : (inference_loop s (msgs ++ [{ role := .user, content := u }])
        sc1 (init_ctx s)).1 with ⟨p, ctx⟩ | _
    · rw [h1, hres]
      simp only []
      refine ⟨by trivial, by first | trivial | rw [h2], ?_⟩
      simp only [List.map_append, h3]
    · rw [h1, hres]
      simp only []
      exact ⟨by trivial, by first | trivial | rw [h2], h3⟩
  · rw [hA, hB]
    simp only []
    refine ⟨?_, by first | trivial | rw [h2], ?_⟩
    · rw [hAB]
    · rw [hAB]
      simp only [List.map_append, h3]

/-- Witness for C10: two scripted runs identical except for the `rephrase`
extra of the backtrack tag (present in one, absent in the other). -/
theorem rephrase_noninterference_witness :
    ((run ({} : Settings) ("hi".toList) []
        [⟨["<<checkpoint:i>>T<<backtrack:i|r>>".toList], .ok⟩,
         ⟨["fine".toList], .ok⟩]).messages =
      (run ({} : Settings) ("hi".toList) []
        [⟨["<<checkpoint:i>>T<<backtrack:i|r|rephrase:X>>".toList], .ok⟩,
         ⟨["fine".toList], .ok⟩]).messages) ∧
    ((run ({} : Settings) ("hi".toList) []
        [⟨["<<checkpoint:i>>T<<backtrack:i|r>>".toList], .ok⟩,
         ⟨["fine".toList], .ok⟩]).records =
      (run ({} : Settings) ("hi".toList) []
        [⟨["<<checkpoint:i>>T<<backtrack:i|r|rephrase:X>>".toList], .ok⟩,
         ⟨["fine".toList], .ok⟩]).records) ∧
    ((run ({} : Settings) ("hi".toList) []
        [⟨["<<checkpoint:i>>T<<backtrack:i|r>>".toList], .ok⟩,
         ⟨["fine".toList], .ok⟩]).outs.map erase_rephrase_out =
      (run ({} : Settings) ("hi".toList) []
        [⟨["<<checkpoint:i>>T<<backtrack:i|r|rephrase:X>>".toList], .ok⟩,
         ⟨["fine".toList], .ok⟩]).outs.map erase_rephrase_out) :=
  rephrase_noninterference ({} : Settings) ("hi".toList) []
    [⟨["<<checkpoint:i>>T<<backtrack:i|r|rephrase:X>>".toList], .ok⟩,
     ⟨["fine".toList], .ok⟩]
    [⟨["<<checkpoint:i>>T<<backtrack:i|r>>".toList], .ok⟩,
     ⟨["fine".toList], .ok⟩]
    (List.Forall₂.cons ⟨rfl, by decide, by decide⟩
      (List.Forall₂.cons ⟨rfl, by decide, by decide⟩ List.Forall₂.nil))

end Sheldrake
